import Mathlib

/-!
Verification of the ERD-generator schema replay engine.

The definitions below are a shallow embedding of the Python sources
`erd_generator/schema.py`, `erd_generator/sql_parser.py`,
`erd_generator/schema_diff.py` and `erd_generator/drawio_parser.py`.
Python dicts are modelled as association lists in insertion order,
Python sets as duplicate-free lists in iteration order, and the
`sqlglot` statement AST as a small inductive statement type whose
constructors carry exactly the data the statement handlers read.
-/

/-- Python truthiness of an optional string: `None` and `""` are falsy. -/
def optTruthy : Option String → Bool
  | none => false
  | some s => s ≠ ""

/-- Python `str.lower()` restricted to ASCII case folding. -/
def pyLower (s : String) : String := String.mk (s.toList.map Char.toLower)

/-- Python `str.upper()` restricted to ASCII case folding. -/
def pyUpper (s : String) : String := String.mk (s.toList.map Char.toUpper)

/-- The whitespace set Python `str.strip()` removes. -/
def isPySpace (c : Char) : Bool :=
  c = ' ' ∨ c = '\t' ∨ c = '\n' ∨ c = '\r' ∨ c = '\x0b' ∨ c = '\x0c'

/-- Python `str.strip()`. -/
def pyStrip (s : String) : String :=
  String.mk (((s.toList.dropWhile isPySpace).reverse.dropWhile isPySpace).reverse)

/-- Association-list lookup with string keys (Python `dict.get` / `in`). -/
def alookup {α : Type} (m : List (String × α)) (k : String) : Option α :=
  match m with
  | [] => none
  | (k', v) :: rest => if k' = k then some v else alookup rest k

/-- Python `dict.pop(k, None)`: dict keys are unique, so removal drops
every pair stored under the key. -/
def dictRemove {α : Type} (m : List (String × α)) (k : String) : List (String × α) :=
  match m with
  | [] => []
  | kv :: rest => if kv.1 = k then dictRemove rest k else kv :: dictRemove rest k

/-- Python `d[k] = v`: replace in place when the key exists, else append. -/
def dictSet {α : Type} (m : List (String × α)) (k : String) (v : α) : List (String × α) :=
  if (alookup m k).isSome then
    m.map (fun kv => if kv.1 = k then (k, v) else kv)
  else m ++ [(k, v)]

/-- Update the value stored at a key in place (used for Python in-place object mutation). -/
def dictUpdate {α : Type} (m : List (String × α)) (k : String) (f : α → α) : List (String × α) :=
  match m with
  | [] => []
  | kv :: rest => if kv.1 = k then (k, f kv.2) :: dictUpdate rest k f else kv :: dictUpdate rest k f

/-- Python set insertion: `s.add(x)` keeps the set duplicate free. -/
def setAdd {α : Type} [DecidableEq α] (l : List α) (x : α) : List α :=
  if x ∈ l then l else l ++ [x]

/-- Python set construction from an iterable (a set comprehension):
keeps the first occurrence of each element, in iteration order. -/
def setOfList {α : Type} [DecidableEq α] (l : List α) : List α :=
  l.foldl setAdd []

/-- Column of a table, as in `schema.py` (`Column`). -/
structure Column where
  name : String
  data_type : String
  nullable : Bool
  is_primary_key : Bool
deriving DecidableEq, Repr

/-- Foreign-key constraint, as in `schema.py` (`ForeignKey`). -/
structure ForeignKey where
  columns : List String
  ref_table : String
  ref_columns : List String
  name : Option String
deriving DecidableEq, Repr

/-- Modelled from the spec: the `Index` class is imported by
`sql_parser.py` from `erd_generator.schema` but is absent from the
`schema.py` under `src/`.  Field layout follows the spec (§3 Index) and
the constructor calls in `sql_parser.py`: optional name, display list of
indexed expressions, the parallel list of normalized column names
(`none` for pure expressions), the expression-only entries, a uniqueness
flag, an optional method hint and an optional partial-index predicate. -/
structure Index where
  name : Option String
  columns : List String
  column_names : List (Option String)
  expression_columns : List String
  unique : Bool
  method : Option String
  whereClause : Option String
deriving DecidableEq, Repr

/-- Table, as in `schema.py` (`Table`).  The `indexes` field is imported
and used by `sql_parser.py` but missing from the `Table` declaration in
the `schema.py` under `src/`; it is modelled from the spec (§3 Table:
"set of Indexes") as a duplicate-free list in iteration order. -/
structure Table where
  name : String
  columns : List Column
  primary_key : List String
  foreign_keys : List ForeignKey
  constraint_types : List (String × String)
  primary_key_name : Option String
  indexes : List Index
deriving DecidableEq, Repr

/-- A fresh `Table(name=name)` with all collections empty. -/
def newTable (name : String) : Table :=
  { name := name, columns := [], primary_key := [], foreign_keys := []
    constraint_types := [], primary_key_name := none, indexes := [] }

/-- `Table.get_column`: first column whose lower-cased name matches. -/
def Table.get_column (t : Table) (column_name : String) : Option Column :=
  t.columns.find? (fun c => pyLower c.name = pyLower column_name)

/-- `Table.has_column`. -/
def Table.has_column (t : Table) (column_name : String) : Bool :=
  (t.get_column column_name).isSome

/-- `Table.register_constraint`: store the lower-cased name in the registry. -/
def Table.register_constraint (t : Table) (constraint_name constraint_type : String) : Table :=
  { t with constraint_types := dictSet t.constraint_types (pyLower constraint_name) constraint_type }

/-- `Table.sync_primary_key_flags`: recompute each column's PK flag from the PK set. -/
def Table.sync_primary_key_flags (t : Table) : Table :=
  let pk_columns := t.primary_key.map (fun c => pyLower c)
  { t with columns := t.columns.map (fun c => { c with is_primary_key := pk_columns.contains (pyLower c.name) }) }

/-- `Table.set_primary_key`: replace the PK set; with a truthy constraint
name, register it, drop a previously registered different PK name, and
remember it; finally resync the column flags. -/
def Table.set_primary_key (t : Table) (columns : List String) (constraint_name : String) : Table :=
  let t1 := { t with primary_key := setOfList columns }
  let t2 :=
    if constraint_name ≠ "" then
      let key := pyLower constraint_name
      let t1a := t1.register_constraint constraint_name "primary_key"
      let t1b :=
        match t1a.primary_key_name with
        | some old =>
          if old ≠ "" ∧ old ≠ key then
            { t1a with constraint_types := dictRemove t1a.constraint_types old }
          else t1a
        | none => t1a
      { t1b with primary_key_name := some key }
    else t1
  t2.sync_primary_key_flags

/-- Replace the first column whose lower-cased name equals `key` (Python
mutates the object returned by `get_column`). -/
def updateFirstColumn (cols : List Column) (key : String) (f : Column → Column) : List Column :=
  match cols with
  | [] => []
  | col :: rest =>
    if pyLower col.name = key then f col :: rest
    else col :: updateFirstColumn rest key f

/-- `Table.add_column`: merge into an existing same-named column or append;
a PK-flagged column is added to the PK set; flags are resynced. -/
def Table.add_column (t : Table) (column : Column) : Table :=
  let t1 :=
    if t.has_column column.name then
      { t with columns := updateFirstColumn t.columns (pyLower column.name) (fun c =>
          { c with data_type := column.data_type, nullable := column.nullable
                   is_primary_key := column.is_primary_key }) }
    else { t with columns := t.columns ++ [column] }
  let t2 :=
    if column.is_primary_key then { t1 with primary_key := setAdd t1.primary_key column.name }
    else t1
  t2.sync_primary_key_flags

/-- `Table.add_foreign_key`: with a truthy constraint name register it
(lower-cased) and stamp it on the key; else an already-named key is
lower-cased and registered; then append. -/
def Table.add_foreign_key (t : Table) (foreign_key : ForeignKey) (constraint_name : String) : Table :=
  if constraint_name ≠ "" then
    let key := pyLower constraint_name
    let t1 := t.register_constraint constraint_name "foreign_key"
    { t1 with foreign_keys := t1.foreign_keys ++ [{ foreign_key with name := some key }] }
  else
    match foreign_key.name with
    | some n =>
      if n ≠ "" then
        let t1 := { t with constraint_types := dictSet t.constraint_types (pyLower n) "foreign_key" }
        { t1 with foreign_keys := t1.foreign_keys ++ [{ foreign_key with name := some (pyLower n) }] }
      else { t with foreign_keys := t.foreign_keys ++ [foreign_key] }
    | none => { t with foreign_keys := t.foreign_keys ++ [foreign_key] }

/-- `Table.drop_column`: drop the column (case-insensitively) from the
column list and PK set, drop every foreign key whose local columns
mention it together with those keys' registry entries, reset a dangling
PK name, and resync flags. -/
def Table.drop_column (t : Table) (column_name : String) : Table :=
  let target := pyLower column_name
  let t1 := { t with columns := t.columns.filter (fun c => pyLower c.name ≠ target) }
  let t2 := { t1 with primary_key := t1.primary_key.filter (fun c => pyLower c ≠ target) }
  let removed_fk_names := setOfList
    ((t2.foreign_keys.filter (fun fk => optTruthy fk.name &&
        (fk.columns.map (fun c : String => pyLower c)).contains target)).map (fun fk => fk.name.getD ""))
  let t3 := { t2 with foreign_keys := t2.foreign_keys.filter (fun fk =>
      ! (fk.columns.map (fun c : String => pyLower c)).contains target) }
  let t4 := { t3 with constraint_types :=
      removed_fk_names.foldl (fun m (n : String) => dictRemove m (pyLower n)) t3.constraint_types }
  let t5 := { t4 with primary_key_name :=
      if (optTruthy t4.primary_key_name ∧ (alookup t4.constraint_types ((t4.primary_key_name).getD "")).isNone) then
        none
      else t4.primary_key_name }
  t5.sync_primary_key_flags

/-- `Table.update_nullable`: set the nullable flag on the first matching column. -/
def Table.update_nullable (t : Table) (column_name : String) (nullable : Bool) : Table :=
  if t.has_column column_name then
    { t with columns := updateFirstColumn t.columns (pyLower column_name) (fun c => { c with nullable := nullable }) }
  else t

/-- `Table.update_data_type`: set the data type on the first matching
column when the new type string is truthy (Python strips it). -/
def Table.update_data_type (t : Table) (column_name : String) (data_type : String) : Table :=
  if t.has_column column_name ∧ data_type ≠ "" then
    { t with columns := updateFirstColumn t.columns (pyLower column_name) (fun c => { c with data_type := pyStrip data_type }) }
  else t

/-- `Table.drop_constraint`: pop the registry entry; a primary-key entry
clears the PK set, a foreign-key entry drops the same-named keys. -/
def Table.drop_constraint (t : Table) (constraint_name : String) : Table :=
  let key := pyLower constraint_name
  match alookup t.constraint_types key with
  | none => t
  | some ctype =>
    let t1 := { t with constraint_types := dictRemove t.constraint_types key }
    if ctype = "primary_key" then
      ({ t1 with primary_key := [], primary_key_name := none }).sync_primary_key_flags
    else if ctype = "foreign_key" then
      { t1 with foreign_keys := t1.foreign_keys.filter (fun fk => pyLower (fk.name.getD "") ≠ key) }
    else t1

/-- Rename on the first foreign key whose stored name matches `old_key`
(Python's loop breaks after the first match). -/
def renameFirstFk (fks : List ForeignKey) (old_key new_key : String) : List ForeignKey :=
  match fks with
  | [] => []
  | fk :: rest =>
    if pyLower (fk.name.getD "") = old_key then { fk with name := some new_key } :: rest
    else fk :: renameFirstFk rest old_key new_key

/-- `Table.rename_constraint`: pop the old registry entry (a falsy type
value stops after the pop), re-register under the new key, and fix up
the PK name or the first matching foreign-key name. -/
def Table.rename_constraint (t : Table) (old_name new_name : String) : Table :=
  let old_key := pyLower old_name
  match alookup t.constraint_types old_key with
  | none => t
  | some ctype =>
    let t1 := { t with constraint_types := dictRemove t.constraint_types old_key }
    if ctype = "" then t1
    else
      let new_key := pyLower new_name
      let t2 := { t1 with constraint_types := dictSet t1.constraint_types new_key ctype }
      if ctype = "primary_key" then { t2 with primary_key_name := some new_key }
      else if ctype = "foreign_key" then
        { t2 with foreign_keys := renameFirstFk t2.foreign_keys old_key new_key }
      else t2

/-- `Table.rename_column`: rename every case-insensitive occurrence in the
column list, rebuild the PK set, rewrite every foreign key's local
columns and — for self references — referenced columns, then resync. -/
def Table.rename_column (t : Table) (old_name new_name : String) : Table :=
  let old_key := pyLower old_name
  let cols := t.columns.map (fun c => if pyLower c.name = old_key then { c with name := new_name } else c)
  let pk := setOfList (t.primary_key.map (fun c => if pyLower c = old_key then new_name else c))
  let fks := t.foreign_keys.map (fun fk =>
    let fk1 := { fk with columns := fk.columns.map (fun col => if pyLower col = old_key then new_name else col) }
    if fk1.ref_table = t.name then
      { fk1 with ref_columns := fk1.ref_columns.map (fun col => if pyLower col = old_key then new_name else col) }
    else fk1)
  ({ t with columns := cols, primary_key := pk, foreign_keys := fks }).sync_primary_key_flags

/-- A Schema is a mapping from table key to `Table` (`schema.py`). -/
abbrev Schema : Type := List (String × Table)

/-- The foreign-key rewrite of `rename_table`: repoint a key that
referenced the old table name. -/
def fkRetarget (old_name new_name : String) (fk : ForeignKey) : ForeignKey :=
  if fk.ref_table = old_name then { fk with ref_table := new_name } else fk

/-- The per-table rewrite of `rename_table`'s loop over `schema.values()`. -/
def tableRetarget (old_name new_name : String) (t : Table) : Table :=
  { t with foreign_keys := t.foreign_keys.map (fkRetarget old_name new_name) }

/-- `rename_table` (schema.py): move the table to the new key, update its
name, and rewrite every foreign key in the schema that referenced the
old key. -/
def rename_table (schema : Schema) (old_name new_name : String) : Schema :=
  match alookup schema old_name with
  | none => schema
  | some table =>
    let schema1 : Schema := dictRemove schema old_name
    let schema2 : Schema := dictSet schema1 new_name { table with name := new_name }
    schema2.map (fun kv => (kv.1, tableRetarget old_name new_name kv.2))

/-- The per-table body of `rename_column_in_schema`'s loop over
`schema.values()`: tables whose name field equals the renamed table are
skipped; in the others, every foreign key pointing at it has its
referenced columns rewritten. -/
def refColRename (table_name old_name new_name : String) (t : Table) : Table :=
  if t.name = table_name then t
  else { t with foreign_keys := t.foreign_keys.map (fun fk =>
      if fk.ref_table = table_name then
        { fk with ref_columns := fk.ref_columns.map (fun col =>
            if pyLower col = pyLower old_name then new_name else col) }
      else fk) }

/-- `rename_column_in_schema` (schema.py): rename within the named table,
then rewrite the referenced columns of every other table's foreign keys
that point at it. -/
def rename_column_in_schema (schema : Schema) (table_name old_name new_name : String) : Schema :=
  match alookup schema table_name with
  | none => schema
  | some _ =>
    let schema1 : Schema := dictUpdate schema table_name (fun t => t.rename_column old_name new_name)
    schema1.map (fun kv => (kv.1, refColRename table_name old_name new_name kv.2))

example : (newTable "t").has_column "x" = false := by decide

/-! ### Statement AST and handlers (`sql_parser.py`)

The handlers below consume statements at the granularity produced by
`sqlglot`: identifier normalization (`_identifier_name` /
`_normalize_identifier`) has already been applied to every carried
string, an absent name is the empty string (Python falsy), and
formatted index expressions are carried as `(display, normalized?)`
pairs, exactly the data `_format_ordered_expression` returns. -/

/-- Kind of an inline column constraint (`_apply_column_constraints`). -/
inductive ColConstraintKind where
  | primaryKeyK : ColConstraintKind
  | notNullK : ColConstraintKind
  | uniqueK : ColConstraintKind
  | referencesK (refTable : String) (refCols : List String) : ColConstraintKind
deriving DecidableEq, Repr

/-- An inline column constraint with its (possibly empty) name. -/
structure ColConstraint where
  cname : String
  kind : ColConstraintKind
deriving DecidableEq, Repr

/-- A parsed column definition (`exp.ColumnDef`). -/
structure ColumnDefAst where
  name : String
  dataType : String
  constraints : List ColConstraint
deriving DecidableEq, Repr

/-- One clause inside a named table-level constraint (`exp.Constraint`). -/
inductive ConstraintItem where
  | primaryKeyItem (cols : List String) : ConstraintItem
  | foreignKeyItem (cols : List String) (refTable : String) (refCols : List String) : ConstraintItem
  | uniqueItem (pairs : List (String × Option String)) : ConstraintItem
deriving DecidableEq, Repr

/-- A table-body element of a `CREATE TABLE` (`_ingest_table_element`). -/
inductive TableElement where
  | colDef (cd : ColumnDefAst) : TableElement
  | constraintEl (cname : String) (items : List ConstraintItem) : TableElement
  | primaryKeyEl (cols : List String) : TableElement
  | foreignKeyEl (cols : List String) (refTable : String) (refCols : List String) : TableElement
  | uniqueEl (pairs : List (String × Option String)) : TableElement
deriving DecidableEq, Repr

/-- A `-- FK table(col,...)` comment hint (`_extract_fk_hints`). -/
structure FkHint where
  local_column : String
  ref_table : String
  ref_columns : List String
deriving DecidableEq, Repr

/-- One `ALTER TABLE` action (`_handle_alter_table`'s action loop). -/
inductive AlterAction where
  | addColumn (cd : ColumnDefAst) : AlterAction
  | alterColumn (colName : String) (dtype : Option String) (allowNull : Option Bool) : AlterAction
  | addConstraint (exprs : List TableElement) : AlterAction
  | dropColumnA (colName : String) : AlterAction
  | dropConstraintA (cname : String) : AlterAction
  | renameColumnA (oldName newName : String) : AlterAction
  | renameTableA (newName : String) : AlterAction
deriving DecidableEq, Repr

/-- The parsed form of a `CREATE INDEX` statement (`_handle_create_index`). -/
structure IndexAst where
  tableName : String
  indexName : String
  pairs : List (String × Option String)
  uniqueFlag : Bool
  method : Option String
  whereClause : Option String
deriving DecidableEq, Repr

/-- A supported DDL statement after parsing and normalization. -/
inductive Stmt where
  | createTable (name : String) (elements : List TableElement) (hints : List FkHint) : Stmt
  | createIndex (ix : IndexAst) : Stmt
  | dropTable (name : String) : Stmt
  | dropIndex (name : String) : Stmt
  | alterTable (name : String) (actions : List AlterAction) : Stmt
  | alterIndex (name : String) (actions : List String) : Stmt
  | renameConstraintCmd (tableName oldName newName : String) : Stmt
deriving DecidableEq, Repr

/-- Modelled from the spec: `Table.add_index` is called by
`sql_parser.py` but absent from the `schema.py` under `src/`.  Per the
spec (§3), indexes form a set attached to the table and named
constraints are recorded in the constraint registry; the model appends
the index and, for a truthy constraint name, registers it under the
given constraint type. -/
def Table.add_index (t : Table) (idx : Index) (constraint_name constraint_type : String) : Table :=
  let t1 :=
    if constraint_name ≠ "" then t.register_constraint constraint_name constraint_type
    else t
  { t1 with indexes := t1.indexes ++ [idx] }

/-- Modelled from the spec: `Table.rename_index` is called by
`_handle_alter_index` but absent from the `schema.py` under `src/`.
Per the spec (§4.1), an index is identified by its name; renaming
rewrites the matching indexes' names and reports whether one was found. -/
def Table.rename_index (t : Table) (old_name new_name : String) : Table × Bool :=
  if t.indexes.any (fun i => i.name = some old_name) then
    ({ t with indexes := t.indexes.map (fun i =>
        if i.name = some old_name then { i with name := some new_name } else i) }, true)
  else (t, false)

/-- Modelled from the spec: `Table.drop_index` is called by
`_handle_drop` but absent from the `schema.py` under `src/`.  It removes
the indexes with the given name and reports whether one was removed. -/
def Table.drop_index (t : Table) (index_name : String) : Table × Bool :=
  if t.indexes.any (fun i => i.name = some index_name) then
    ({ t with indexes := t.indexes.filter (fun i => i.name ≠ some index_name) }, true)
  else (t, false)

/-- `schema.setdefault(name, Table(name=name))`. -/
def setdefaultTable (schema : Schema) (name : String) : Schema × Table :=
  match alookup schema name with
  | some t => (schema, t)
  | none => (schema ++ [(name, newTable name)], newTable name)

/-- `_apply_unique_constraint`: split the formatted pairs into displays,
normalized names and expression-only entries, then add a unique index. -/
def apply_unique_constraint (t : Table) (pairs : List (String × Option String)) (constraint_name : String) : Table :=
  let displays := pairs.map Prod.fst
  let column_names := pairs.map Prod.snd
  let expression_columns := (pairs.filter (fun p => p.2 = none)).map Prod.fst
  t.add_index
    { name := if constraint_name = "" then none else some constraint_name
      columns := displays, column_names := column_names
      expression_columns := expression_columns, unique := true
      method := none, whereClause := none }
    constraint_name "unique"

/-- `_apply_constraint`: apply each clause of a named constraint. -/
def apply_constraint_items (t : Table) (constraint_name : String) (items : List ConstraintItem) : Table :=
  items.foldl (fun t item =>
    match item with
    | .primaryKeyItem cols => t.set_primary_key cols constraint_name
    | .foreignKeyItem cols rt rcs =>
      t.add_foreign_key { columns := cols, ref_table := rt, ref_columns := rcs, name := none } constraint_name
    | .uniqueItem pairs => apply_unique_constraint t pairs constraint_name) t

/-- `_apply_column_constraints`: thread the table, the column being
defined, and a remembered inline PK constraint name through the
constraint list; at the end a PK-flagged column with a remembered name
re-registers the current PK set under it. -/
def apply_column_constraints (t : Table) (column : Column) (constraints : List ColConstraint) : Table × Column :=
  let res := constraints.foldl (fun (acc : Table × Column × String) con =>
    let (t, c, pkName) := acc
    match con.kind with
    | .primaryKeyK =>
      (t, { c with is_primary_key := true }, if con.cname ≠ "" then con.cname else pkName)
    | .notNullK => (t, { c with nullable := false }, pkName)
    | .uniqueK =>
      (t.add_index
        { name := if con.cname = "" then none else some con.cname
          columns := [pyUpper c.name], column_names := [some c.name]
          expression_columns := [], unique := true, method := none, whereClause := none }
        con.cname "unique", c, pkName)
    | .referencesK rt rcs =>
      (t.add_foreign_key { columns := [c.name], ref_table := rt, ref_columns := rcs, name := none } con.cname,
       c, pkName)) (t, column, "")
  let (t1, c1, pkName) := res
  if c1.is_primary_key ∧ pkName ≠ "" then
    (t1.set_primary_key t1.primary_key pkName, c1)
  else (t1, c1)

/-- `_ingest_column_definition`. -/
def ingest_column_definition (t : Table) (cd : ColumnDefAst) : Table :=
  let column : Column := { name := cd.name, data_type := cd.dataType, nullable := true, is_primary_key := false }
  let (t1, c1) := apply_column_constraints t column cd.constraints
  t1.add_column c1

/-- `_ingest_table_element`. -/
def ingest_table_element (t : Table) (el : TableElement) : Table :=
  match el with
  | .colDef cd => ingest_column_definition t cd
  | .constraintEl cname items => apply_constraint_items t cname items
  | .primaryKeyEl cols => t.set_primary_key cols ""
  | .foreignKeyEl cols rt rcs =>
    t.add_foreign_key { columns := cols, ref_table := rt, ref_columns := rcs, name := none } ""
  | .uniqueEl pairs => apply_unique_constraint t pairs ""

/-- `_apply_fk_hints`: add each hint's single-column foreign key unless
an identical one is already present. -/
def apply_fk_hints (t : Table) (hints : List FkHint) : Table :=
  hints.foldl (fun t h =>
    if h.local_column = "" ∨ h.ref_table = "" then t
    else
      let local_columns := [h.local_column]
      let target_columns := if h.ref_columns = [] then local_columns else h.ref_columns
      if t.foreign_keys.any (fun fk =>
          fk.columns = local_columns && fk.ref_table = h.ref_table && fk.ref_columns = target_columns) then t
      else t.add_foreign_key
        { columns := local_columns, ref_table := h.ref_table, ref_columns := target_columns, name := none } "") t

/-- `_handle_create_table`: reset the (possibly pre-existing) table's
contents, ingest every body element, apply the comment hints, resync. -/
def handle_create_table (schema : Schema) (table_name : String) (elements : List TableElement)
    (hints : List FkHint) : Schema :=
  let (schema1, table) := setdefaultTable schema table_name
  let table := { table with columns := [], primary_key := [], foreign_keys := []
                            indexes := [], constraint_types := [], primary_key_name := none }
  let table := elements.foldl ingest_table_element table
  let table := apply_fk_hints table hints
  dictUpdate schema1 table_name (fun _ => table.sync_primary_key_flags)

/-- `_handle_create_index`: attach the parsed index to the named table,
creating the table when unknown (`setdefault`). -/
def handle_create_index (schema : Schema) (ix : IndexAst) : Schema :=
  let (schema1, _) := setdefaultTable schema ix.tableName
  let columns := ix.pairs.map Prod.fst
  let column_names := ix.pairs.map Prod.snd
  let expression_columns := (ix.pairs.filter (fun p => p.2 = none)).map Prod.fst
  let index : Index :=
    { name := if ix.indexName = "" then none else some ix.indexName
      columns := columns, column_names := column_names
      expression_columns := expression_columns, unique := ix.uniqueFlag
      method := ix.method, whereClause := ix.whereClause }
  dictUpdate schema1 ix.tableName (fun t => t.add_index index "" "unique")

/-- The registry clean-up loop of `_handle_drop_table`: pop the registry
entry of each removed foreign key that carries a truthy name. -/
def popRemovedFkNames (removed : List ForeignKey) (t : Table) : Table :=
  removed.foldl (fun t fk =>
    if optTruthy fk.name then
      { t with constraint_types := dictRemove t.constraint_types (pyLower (fk.name.getD "")) }
    else t) t

/-- The per-table body of `_handle_drop_table`'s loop: drop the foreign
keys referencing the dropped table and their registry entries. -/
def stripDroppedRefs (table_name : String) (t : Table) : Table :=
  let removed : List ForeignKey := t.foreign_keys.filter (fun fk => fk.ref_table = table_name)
  if removed = [] then t
  else popRemovedFkNames removed
    { t with foreign_keys := t.foreign_keys.filter (fun fk => fk.ref_table ≠ table_name) }

/-- `_handle_drop_table`: a missing key is a no-op; otherwise remove the
table, strip every remaining table's foreign keys that referenced it and
those keys' registry entries. -/
def handle_drop_table (table_name : String) (schema : Schema) : Schema :=
  if (alookup schema table_name).isSome then
    let schema1 : Schema := dictRemove schema table_name
    schema1.map (fun kv => (kv.1, stripDroppedRefs table_name kv.2))
  else schema

/-- `_handle_drop` for `DROP INDEX`: ask each table in order to drop the
index, stopping at the first success. -/
def dropIndexScan (tables : List (String × Table)) (index_name : String) : List (String × Table) :=
  match tables with
  | [] => []
  | (k, t) :: rest =>
    let (t1, found) := t.drop_index index_name
    if found then (k, t1) :: rest
    else (k, t1) :: dropIndexScan rest index_name

/-- `_handle_drop` with kind INDEX. -/
def handle_drop_index (schema : Schema) (index_name : String) : Schema :=
  dropIndexScan schema index_name

/-- One `AddConstraint` expression (`exp.AddConstraint`'s expression
loop): column definitions are ignored here, unlike in a table body. -/
def apply_add_constraint_expr (t : Table) (el : TableElement) : Table :=
  match el with
  | .colDef _ => t
  | .constraintEl cname items => apply_constraint_items t cname items
  | .primaryKeyEl cols => t.set_primary_key cols ""
  | .foreignKeyEl cols rt rcs =>
    t.add_foreign_key { columns := cols, ref_table := rt, ref_columns := rcs, name := none } ""
  | .uniqueEl pairs => apply_unique_constraint t pairs ""

/-- Everything before the last `.` of a dotted name (`rsplit(".", 1)[0]`). -/
def dottedPrefix (s : String) : String :=
  if s.toList.contains '.' then
    String.mk (((s.toList.reverse.dropWhile (fun c => c ≠ '.')).drop 1).reverse)
  else s

/-- One `ALTER TABLE` action applied against the current table handle;
returns the updated schema and the (possibly renamed) current key. -/
def applyAlterAction (schema : Schema) (current_name : String) (action : AlterAction) : Schema × String :=
  match action with
  | .addColumn cd =>
    (dictUpdate schema current_name (fun t => ingest_column_definition t cd), current_name)
  | .alterColumn colName dtype allowNull =>
    (dictUpdate schema current_name (fun t =>
      let t1 := match dtype with
        | some d => t.update_data_type colName d
        | none => t
      match allowNull with
      | some b => t1.update_nullable colName b
      | none => t1), current_name)
  | .addConstraint exprs =>
    (dictUpdate schema current_name (fun t => exprs.foldl apply_add_constraint_expr t), current_name)
  | .dropColumnA colName =>
    (dictUpdate schema current_name (fun t => t.drop_column colName), current_name)
  | .dropConstraintA cname =>
    if cname ≠ "" then
      (dictUpdate schema current_name (fun t => t.drop_constraint cname), current_name)
    else (schema, current_name)
  | .renameColumnA oldName newName =>
    if oldName ≠ "" ∧ newName ≠ "" ∧ oldName ≠ newName then
      (rename_column_in_schema schema current_name oldName newName, current_name)
    else (schema, current_name)
  | .renameTableA newName =>
    let newName :=
      if newName ≠ "" ∧ ¬ newName.toList.contains '.' ∧ current_name.toList.contains '.' then
        dottedPrefix current_name ++ "." ++ newName
      else newName
    if newName ≠ "" ∧ newName ≠ current_name then
      (rename_table schema current_name newName, newName)
    else (schema, current_name)

/-- `_handle_alter_table`: ensure the table exists, fold the actions over
the current table handle, and resync the final current table's flags. -/
def handle_alter_table (schema : Schema) (table_name : String) (actions : List AlterAction) : Schema :=
  let (schema1, _) := setdefaultTable schema table_name
  let res := actions.foldl (fun (acc : Schema × String) a => applyAlterAction acc.1 acc.2 a) (schema1, table_name)
  dictUpdate res.1 res.2 (fun t => t.sync_primary_key_flags)

/-- `_handle_alter_index`'s rename scan: ask each table in order to
rename the index, stopping at the first success. -/
def renameIndexScan (tables : List (String × Table)) (old_name new_name : String) : List (String × Table) × Bool :=
  match tables with
  | [] => ([], false)
  | (k, t) :: rest =>
    let (t1, found) := t.rename_index old_name new_name
    if found then ((k, t1) :: rest, true)
    else
      let (rest1, f) := renameIndexScan rest old_name new_name
      ((k, t1) :: rest1, f)

/-- `_handle_alter_index`: fold the rename actions, tracking the current
index name; an empty or unchanged new name is skipped. -/
def handle_alter_index (schema : Schema) (index_name : String) (actions : List String) : Schema :=
  (actions.foldl (fun (acc : Schema × String) new_name =>
    if new_name = "" ∨ new_name = acc.2 then acc
    else
      let (schema1, found) := renameIndexScan acc.1 acc.2 new_name
      (schema1, if found then new_name else acc.2)) (schema, index_name)).1

/-- `_handle_command` for the `RENAME CONSTRAINT` fallback. -/
def handle_rename_constraint (schema : Schema) (table_name old_name new_name : String) : Schema :=
  let (schema1, _) := setdefaultTable schema table_name
  dictUpdate schema1 table_name (fun t => t.rename_constraint old_name new_name)

/-- Dispatch one statement (`parse_schema_from_sql`'s statement loop). -/
def applyStmt (schema : Schema) (stmt : Stmt) : Schema :=
  match stmt with
  | .createTable name elements hints => handle_create_table schema name elements hints
  | .createIndex ix => handle_create_index schema ix
  | .dropTable name => handle_drop_table name schema
  | .dropIndex name => handle_drop_index schema name
  | .alterTable name actions => handle_alter_table schema name actions
  | .alterIndex name actions => handle_alter_index schema name actions
  | .renameConstraintCmd tname old new => handle_rename_constraint schema tname old new

/-- Replay a statement sequence against the empty schema. -/
def replay (stmts : List Stmt) : Schema :=
  stmts.foldl applyStmt []

/-- Does any foreign key anywhere in the schema reference the given table key? -/
def noFkRefs (schema : Schema) (table_name : String) : Bool :=
  schema.all (fun kv => kv.2.foreign_keys.all (fun fk => fk.ref_table ≠ table_name))

/-- Demonstration statements for claim C1: a table `a` whose column
forward-references table `t`, followed by a `DROP TABLE` of the
never-created `t`. -/
def c1DemoStmts : List Stmt :=
  [Stmt.createTable "a"
    [TableElement.colDef
      { name := "x", dataType := "INT"
        constraints := [{ cname := "", kind := ColConstraintKind.referencesK "t" ["id"] }] }] []]

/-- Witness statements for claim C1: table `u` exists and table `a`
references it, so dropping `u` is a drop of a live table. -/
def c1WitnessStmts : List Stmt :=
  [ Stmt.createTable "u"
      [TableElement.colDef
        { name := "id", dataType := "INT"
          constraints := [{ cname := "", kind := ColConstraintKind.primaryKeyK }] }] []
  , Stmt.createTable "a"
      [TableElement.colDef
        { name := "x", dataType := "INT"
          constraints := [{ cname := "fk1", kind := ColConstraintKind.referencesK "u" ["id"] }] }] [] ]

/-- Demonstration schema for claim C2: a table `a` holding a named
foreign key to the not-yet-created table `t`. -/
def c2DemoSchema : Schema :=
  [("a", { newTable "a" with
      foreign_keys := [{ columns := ["x"], ref_table := "t", ref_columns := ["id"], name := some "fk1" }]
      constraint_types := [("fk1", "foreign_key")] })]

/-- The demonstration schema after `CREATE TABLE t ()`. -/
def c2S1 : Schema := handle_create_table c2DemoSchema "t" [] []

/-- The demonstration schema after `CREATE TABLE t ()` then `DROP TABLE t`. -/
def c2S2 : Schema := handle_drop_table "t" c2S1

/-! ### Canonicalizer (`schema_diff.py`) -/

/-- `_normalize_identifier` (schema_diff.py): strip then lower. -/
def normIdent (value : String) : String := pyLower (pyStrip value)

/-- `ForeignKeySummary` (schema_diff.py). -/
structure ForeignKeySummary where
  local_columns : List String
  ref_table : String
  ref_columns : List String
deriving DecidableEq, Repr

/-- `IndexSummary` (schema_diff.py). -/
structure IndexSummary where
  columns : List String
  unique : Bool
  whereClause : String
deriving DecidableEq, Repr

/-- `TableSummary` (schema_diff.py); the set-valued fields are
duplicate-free lists in iteration order. -/
structure TableSummary where
  name : String
  columns : List String
  foreign_keys : List ForeignKeySummary
  indexes : List IndexSummary
deriving DecidableEq, Repr

/-- `SchemaSnapshot` (schema_diff.py): normalized table name to summary. -/
structure SchemaSnapshot where
  tables : List (String × TableSummary)
deriving DecidableEq, Repr

/-- `_table_columns`: the set of normalized column names. -/
def table_columns (t : Table) : List String :=
  setOfList (t.columns.map (fun c => normIdent c.name))

/-- The summary of one foreign key (`_table_foreign_keys`'s loop body). -/
def fkSummary (fk : ForeignKey) : ForeignKeySummary :=
  { local_columns := fk.columns.map normIdent
    ref_table := normIdent fk.ref_table
    ref_columns := fk.ref_columns.map normIdent }

/-- `_table_foreign_keys`: the set of foreign-key summaries. -/
def table_foreign_keys (t : Table) : List ForeignKeySummary :=
  setOfList (t.foreign_keys.map fkSummary)

/-- The summary of one index (`_table_indexes`'s loop body). -/
def idxSummary (idx : Index) : IndexSummary :=
  let column_names : List String :=
    if idx.column_names ≠ [] then idx.column_names.map (fun c => c.getD "")
    else idx.columns
  { columns := ((column_names.filter (fun c => c ≠ "")).map (fun c => normIdent c))
    unique := idx.unique
    whereClause := pyLower (pyStrip (idx.whereClause.getD "")) }

/-- `_table_indexes`: the set of index summaries. -/
def table_indexes (t : Table) : List IndexSummary :=
  setOfList (t.indexes.map idxSummary)

/-- One table's snapshot entry; `name` keeps the raw schema key. -/
def tableSummaryOf (table_name : String) (t : Table) : TableSummary :=
  { name := table_name, columns := table_columns t
    foreign_keys := table_foreign_keys t, indexes := table_indexes t }

/-- `snapshot_from_schema` (schema_diff.py). -/
def snapshot_from_schema (schema : Schema) : SchemaSnapshot :=
  ⟨schema.foldl (fun tables kv => dictSet tables (normIdent kv.1) (tableSummaryOf kv.1 kv.2)) []⟩

/-- Python `==` on `TableSummary`: the set-valued fields compare as sets. -/
def tableSummaryPyEq (a b : TableSummary) : Prop :=
  a.name = b.name ∧
  (∀ x, x ∈ a.columns ↔ x ∈ b.columns) ∧
  (∀ x, x ∈ a.foreign_keys ↔ x ∈ b.foreign_keys) ∧
  (∀ x, x ∈ a.indexes ↔ x ∈ b.indexes)

/-- Python `==` on `SchemaSnapshot`: dict equality is same key set with
pointwise equal values. -/
def snapshotPyEq (a b : SchemaSnapshot) : Prop :=
  (∀ k, (alookup a.tables k).isSome ↔ (alookup b.tables k).isSome) ∧
  (∀ k ta tb, alookup a.tables k = some ta → alookup b.tables k = some tb → tableSummaryPyEq ta tb)

/-- The snapshot association list before dict collapsing: one entry per
schema entry, keyed by the normalized table name. -/
def snapAssoc (schema : Schema) : List (String × TableSummary) :=
  schema.map (fun kv => (normIdent kv.1, tableSummaryOf kv.1 kv.2))

/-- Demonstration schema for claim C3: table `a` plus table `c` holding a
forward reference to the never-created table `b`. -/
def c3DemoSchema : Schema :=
  [ ("a", newTable "a")
  , ("c", { newTable "c" with
      foreign_keys := [{ columns := ["x"], ref_table := "b", ref_columns := [], name := none }] }) ]

/-- Witness schema for claim C3: table `a` plus table `c` referencing `a`. -/
def c3WitnessSchema : Schema :=
  [ ("a", newTable "a")
  , ("c", { newTable "c" with
      foreign_keys := [{ columns := ["x"], ref_table := "a", ref_columns := ["id"], name := none }] }) ]

/-- An occurrence is compatible with the column rename round trip
`c -> c2 -> c`: spelled exactly `c` when it matches `c` case-insensitively,
and never matching `c2` case-insensitively. -/
def strOk (c c2 x : String) : Prop :=
  (pyLower x = pyLower c → x = c) ∧ pyLower x ≠ pyLower c2

instance (c c2 x : String) : Decidable (strOk c c2 x) := by
  unfold strOk
  infer_instance

/-- All rename-rewritten positions of a table are round-trip compatible,
its primary-key set is duplicate free (a Python set invariant) and its
column flags agree with the primary-key set (maintained by
`sync_primary_key_flags`). -/
def tableOk (c c2 : String) (t : Table) : Prop :=
  (∀ col ∈ t.columns, strOk c c2 col.name) ∧
  (∀ x ∈ t.primary_key, strOk c c2 x) ∧
  t.primary_key.Nodup ∧
  (∀ fk ∈ t.foreign_keys,
    (∀ x ∈ fk.columns, strOk c c2 x) ∧ (∀ x ∈ fk.ref_columns, strOk c c2 x)) ∧
  (∀ col ∈ t.columns,
    col.is_primary_key = (t.primary_key.map (fun c => pyLower c)).contains (pyLower col.name))

instance (c c2 : String) (t : Table) : Decidable (tableOk c c2 t) := by
  unfold tableOk
  infer_instance

/-- Demonstration schema for claim C4: table `t` owns column `c` and has
no column `c2`, while table `a` has a foreign key whose referenced
column list mentions the non-existent `c2`. -/
def c4DemoSchema : Schema :=
  [ ("t", { newTable "t" with
      columns := [{ name := "c", data_type := "INT", nullable := true, is_primary_key := false }] })
  , ("a", { newTable "a" with
      foreign_keys := [{ columns := ["x"], ref_table := "t", ref_columns := ["c2"], name := none }] }) ]

/-- Witness schema for claim C4: table `t` owns column `c`; table `a`
references `t.c`. -/
def c4WitnessSchema : Schema :=
  [ ("t", { newTable "t" with
      columns := [{ name := "c", data_type := "INT", nullable := true, is_primary_key := false }] })
  , ("a", { newTable "a" with
      foreign_keys := [{ columns := ["x"], ref_table := "t", ref_columns := ["c"], name := none }] }) ]

/-! ### Diff report (`schema_diff.generate_diff_report`) -/

/-- Lexicographic strict order on lists from a strict order on elements
(Python sequence comparison: first difference decides, else length). -/
def lexLt {α : Type} (lt : α → α → Bool) : List α → List α → Bool
  | _, [] => false
  | [], _ :: _ => true
  | a :: as, b :: bs => if lt a b then true else if lt b a then false else lexLt lt as bs

/-- Python `<` on characters: code-point comparison. -/
def charLt (a b : Char) : Bool := a.toNat < b.toNat

/-- Python `<` on strings: lexicographic by code point. -/
def pyStrLt (a b : String) : Bool := lexLt charLt a.toList b.toList

/-- Python `<=` on strings. -/
def pyStrLe (a b : String) : Bool := ! pyStrLt b a

/-- Python `<` on string tuples. -/
def listStrLt (a b : List String) : Bool := lexLt pyStrLt a b

/-- Python `<=` on string tuples. -/
def listStrLe (a b : List String) : Bool := ! listStrLt b a

/-- Python `sorted(l, key=...)`: a stable sort by a boolean `<=`
(insertion sort, which is stable, like Python's sort). -/
def pySortBy {α : Type} (le : α → α → Bool) (l : List α) : List α :=
  List.insertionSort (fun a b => le a b) l

/-- Python `sorted` on strings. -/
def sortStrings (l : List String) : List String := pySortBy pyStrLe l

/-- The FK sort key of `generate_diff_report`: `(ref_table, local_columns)`. -/
def fkKeyLe (x y : ForeignKeySummary) : Bool :=
  if pyStrLt x.ref_table y.ref_table then true
  else if pyStrLt y.ref_table x.ref_table then false
  else listStrLe x.local_columns y.local_columns

/-- Python `<` on booleans (`False < True`). -/
def boolLt (a b : Bool) : Bool := !a && b

/-- The index sort key of `generate_diff_report`: `(columns, unique, where)`. -/
def idxKeyLe (x y : IndexSummary) : Bool :=
  if listStrLt x.columns y.columns then true
  else if listStrLt y.columns x.columns then false
  else if boolLt x.unique y.unique then true
  else if boolLt y.unique x.unique then false
  else pyStrLe x.whereClause y.whereClause

/-- Looking up a key that the report already found in the dict. -/
def dictGetTS (m : List (String × TableSummary)) (k : String) : TableSummary :=
  (alookup m k).getD { name := "", columns := [], foreign_keys := [], indexes := [] }

/-- Python `", ".join(l)`. -/
def joinComma (l : List String) : String := String.intercalate ", " l

/-- `_format_column_list`: sort and comma-join. -/
def format_column_list (columns : List String) : String := joinComma (sortStrings columns)

/-- `_format_fk`. -/
def format_fk (table_name : String) (s : ForeignKeySummary) : String :=
  let localPart := format_column_list s.local_columns
  let localStr := if localPart = "" then "<none>" else localPart
  let ref_columns := format_column_list s.ref_columns
  let target := if s.ref_table = "" then "<unknown>" else s.ref_table
  let ref_part := if ref_columns ≠ "" then target ++ "." ++ ref_columns else target
  table_name ++ ": (" ++ localStr ++ ") -> " ++ ref_part

/-- `_format_index`. -/
def format_index (table_name : String) (s : IndexSummary) : String :=
  let pre := if s.unique then "Unique " else ""
  let colsPart := format_column_list s.columns
  let cols := if colsPart = "" then "<none>" else colsPart
  let text := table_name ++ ": " ++ pre ++ "index on [" ++ cols ++ "]"
  if s.whereClause ≠ "" then text ++ " where " ++ s.whereClause else text

/-- The `section` helper of `generate_diff_report`: title, items or
`  (none)`, then a blank separator line. -/
def sectionLines (title : String) (items : List String) : List String :=
  [title] ++ (if items = [] then ["  (none)"] else items.map (fun item => "  - " ++ item)) ++ [""]

/-- The per-key loop of the `Columns missing in draw.io` section. -/
def columnsMissingLines (migT diaT : List (String × TableSummary)) (keys : List String) : List String :=
  keys.foldl (fun acc key =>
    let mig_t := dictGetTS migT key
    let dia_t := dictGetTS diaT key
    let missing := sortStrings (mig_t.columns.filter (fun c => ! dia_t.columns.contains c))
    if missing = [] then acc else acc ++ [mig_t.name ++ ": " ++ joinComma missing]) []

/-- The per-key loop of the `Columns only in draw.io` section (labelled,
as in the source, with the migration table's name). -/
def columnsExtraLines (migT diaT : List (String × TableSummary)) (keys : List String) : List String :=
  keys.foldl (fun acc key =>
    let mig_t := dictGetTS migT key
    let dia_t := dictGetTS diaT key
    let extra := sortStrings (dia_t.columns.filter (fun c => ! mig_t.columns.contains c))
    if extra = [] then acc else acc ++ [mig_t.name ++ ": " ++ joinComma extra]) []

/-- The per-key loop of the `Foreign keys missing in draw.io` section. -/
def fksMissingLines (migT diaT : List (String × TableSummary)) (keys : List String) : List String :=
  keys.foldl (fun acc key =>
    let mig_t := dictGetTS migT key
    let dia_t := dictGetTS diaT key
    let missing := mig_t.foreign_keys.filter (fun fk => ! dia_t.foreign_keys.contains fk)
    if missing = [] then acc
    else acc ++ (pySortBy fkKeyLe missing).map (fun fk => format_fk mig_t.name fk)) []

/-- The per-key loop of the `Foreign keys only in draw.io` section. -/
def fksExtraLines (migT diaT : List (String × TableSummary)) (keys : List String) : List String :=
  keys.foldl (fun acc key =>
    let mig_t := dictGetTS migT key
    let dia_t := dictGetTS diaT key
    let extra := dia_t.foreign_keys.filter (fun fk => ! mig_t.foreign_keys.contains fk)
    if extra = [] then acc
    else acc ++ (pySortBy fkKeyLe extra).map (fun fk => format_fk dia_t.name fk)) []

/-- The per-key loop of the `Indexes missing in draw.io` section. -/
def idxMissingLines (migT diaT : List (String × TableSummary)) (keys : List String) : List String :=
  keys.foldl (fun acc key =>
    let mig_t := dictGetTS migT key
    let dia_t := dictGetTS diaT key
    let missing := mig_t.indexes.filter (fun idx => ! dia_t.indexes.contains idx)
    if missing = [] then acc
    else acc ++ (pySortBy idxKeyLe missing).map (fun idx => format_index mig_t.name idx)) []

/-- The per-key loop of the `Indexes only in draw.io` section. -/
def idxExtraLines (migT diaT : List (String × TableSummary)) (keys : List String) : List String :=
  keys.foldl (fun acc key =>
    let mig_t := dictGetTS migT key
    let dia_t := dictGetTS diaT key
    let extra := dia_t.indexes.filter (fun idx => ! mig_t.indexes.contains idx)
    if extra = [] then acc
    else acc ++ (pySortBy idxKeyLe extra).map (fun idx => format_index dia_t.name idx)) []

/-- Python `str.rstrip()`. -/
def pyRStrip (s : String) : String :=
  String.mk ((s.toList.reverse.dropWhile isPySpace).reverse)

/-- `generate_diff_report` (schema_diff.py): the eight fixed sections in
order, each sorted, joined by newlines, right-stripped, plus a final
newline. -/
def generate_diff_report (migration_snapshot drawio_snapshot : SchemaSnapshot) : String :=
  let migration_tables := migration_snapshot.tables
  let drawio_tables := drawio_snapshot.tables
  let migration_keys := setOfList (migration_tables.map Prod.fst)
  let drawio_keys := setOfList (drawio_tables.map Prod.fst)
  let only_migrations := sortStrings (migration_keys.filter (fun k => ! drawio_keys.contains k))
  let only_drawio := sortStrings (drawio_keys.filter (fun k => ! migration_keys.contains k))
  let inter := sortStrings (migration_keys.filter (fun k => drawio_keys.contains k))
  let lines :=
    sectionLines "Tables only in migrations" (only_migrations.map (fun k => (dictGetTS migration_tables k).name)) ++
    sectionLines "Tables only in draw.io" (only_drawio.map (fun k => (dictGetTS drawio_tables k).name)) ++
    sectionLines "Columns missing in draw.io" (columnsMissingLines migration_tables drawio_tables inter) ++
    sectionLines "Columns only in draw.io" (columnsExtraLines migration_tables drawio_tables inter) ++
    sectionLines "Foreign keys missing in draw.io" (fksMissingLines migration_tables drawio_tables inter) ++
    sectionLines "Foreign keys only in draw.io" (fksExtraLines migration_tables drawio_tables inter) ++
    sectionLines "Indexes missing in draw.io" (idxMissingLines migration_tables drawio_tables inter) ++
    sectionLines "Indexes only in draw.io" (idxExtraLines migration_tables drawio_tables inter)
  pyRStrip (String.intercalate "\n" lines) ++ "\n"

/-- Tie-breaking comparator: Python tuple comparison under a sort key,
strict on the first component, then a weak compare on the rest. -/
def tieLe {α β : Type} (lt : α → α → Bool) (le2 : β → β → Bool) (a1 a2 : α) (b1 b2 : β) : Bool :=
  if lt a1 a2 then true else if lt a2 a1 then false else le2 b1 b2

/-- The `(unique, where)` tail of the index sort key. -/
def idxTieInner (p q : Bool × String) : Bool :=
  tieLe boolLt pyStrLe p.1 q.1 p.2 q.2

/-- Well-formedness of one table summary as produced by the snapshot
builders: the set-valued fields are duplicate-free lists. -/
def tableSummaryWF (ts : TableSummary) : Prop :=
  ts.columns.Nodup ∧ ts.foreign_keys.Nodup ∧ ts.indexes.Nodup

instance (ts : TableSummary) : Decidable (tableSummaryWF ts) := by
  unfold tableSummaryWF
  infer_instance

/-- Well-formedness of a snapshot: the table keys are duplicate free and
every summary is well formed. -/
def snapshotWF (S : SchemaSnapshot) : Prop :=
  (S.tables.map Prod.fst).Nodup ∧ ∀ kv ∈ S.tables, tableSummaryWF kv.2

instance (S : SchemaSnapshot) : Decidable (snapshotWF S) := by
  unfold snapshotWF
  infer_instance

/-- No table of the snapshot holds two distinct foreign-key summaries that
share the report sort key `(ref_table, local_columns)`. -/
def fkKeysSeparated (S : SchemaSnapshot) : Prop :=
  ∀ kv ∈ S.tables, ∀ a ∈ kv.2.foreign_keys, ∀ b ∈ kv.2.foreign_keys,
    a.ref_table = b.ref_table → a.local_columns = b.local_columns → a = b

instance (S : SchemaSnapshot) : Decidable (fkKeysSeparated S) := by
  unfold fkKeysSeparated
  infer_instance

/-- Two foreign-key summaries sharing the report sort key
`(ref_table, local_columns)` but differing in `ref_columns`. -/
def c9Fk1 : ForeignKeySummary :=
  { local_columns := ["a"], ref_table := "u", ref_columns := ["x"] }

/-- See `c9Fk1`. -/
def c9Fk2 : ForeignKeySummary :=
  { local_columns := ["a"], ref_table := "u", ref_columns := ["y"] }

/-- Migration snapshot holding `c9Fk1` before `c9Fk2`. -/
def c9S1 : SchemaSnapshot :=
  ⟨[("t", { name := "t", columns := [], foreign_keys := [c9Fk1, c9Fk2], indexes := [] })]⟩

/-- The same snapshot as a Python value, iterated in the other order. -/
def c9S2 : SchemaSnapshot :=
  ⟨[("t", { name := "t", columns := [], foreign_keys := [c9Fk2, c9Fk1], indexes := [] })]⟩

/-- A draw.io snapshot with table `t` and no foreign keys. -/
def c9D : SchemaSnapshot :=
  ⟨[("t", { name := "t", columns := [], foreign_keys := [], indexes := [] })]⟩

/-- Foreign-key summaries with distinct sort keys, for the witness. -/
def c9WFk1 : ForeignKeySummary :=
  { local_columns := ["a"], ref_table := "u", ref_columns := ["x"] }

/-- See `c9WFk1`. -/
def c9WFk2 : ForeignKeySummary :=
  { local_columns := ["b"], ref_table := "v", ref_columns := ["y"] }

/-- Witness migration snapshot, one iteration order. -/
def c9W1 : SchemaSnapshot :=
  ⟨[("t", { name := "t", columns := ["a", "b"], foreign_keys := [c9WFk1, c9WFk2]
            indexes := [] })]⟩

/-- The same snapshot as a Python value, iterated in the other order. -/
def c9W2 : SchemaSnapshot :=
  ⟨[("t", { name := "t", columns := ["b", "a"], foreign_keys := [c9WFk2, c9WFk1]
            indexes := [] })]⟩

/-! ### Statement splitter (`sql_parser._split_sql_statements`) -/

/-- Scan for the first `*/` (Python `sql.find("*/", ...)`): returns the
consumed prefix through the closer and the remainder. -/
def findClose : List Char → Option (List Char × List Char)
  | [] => none
  | c :: rest =>
    if c = '*' ∧ rest.head? = some '/' then some (['*', '/'], rest.tail)
    else
      match findClose rest with
      | none => none
      | some (pre, rem) => some (c :: pre, rem)

/-- Flush the buffer: strip it and append it when non-empty (both the
mid-loop `;` flush and the final tail flush of the source). -/
def flushStmt (stmts : List String) (buf : List Char) : List String :=
  let statement := pyStrip (String.mk buf)
  if statement ≠ "" then stmts ++ [statement] else stmts

/-- The loop of `_split_sql_statements`, on the remaining characters with
the `in_single`/`in_double` flags, the buffer and the emitted statements. -/
def splitSqlAux : List Char → Bool → Bool → List Char → List String → List String
  | [], _, _, buf, stmts => flushStmt stmts buf
  | c :: cs, in_single, in_double, buf, stmts =>
    if c = '\'' ∧ ¬in_double then
      if in_single ∧ cs.head? = some '\'' then
        splitSqlAux cs.tail in_single in_double (buf ++ ['\'', '\'']) stmts
      else
        splitSqlAux cs (!in_single) in_double (buf ++ [c]) stmts
    else if c = '"' ∧ ¬in_single then
      if in_double ∧ cs.head? = some '"' then
        splitSqlAux cs.tail in_single in_double (buf ++ ['"', '"']) stmts
      else
        splitSqlAux cs in_single (!in_double) (buf ++ [c]) stmts
    else if ¬in_single ∧ ¬in_double ∧ c = '-' ∧ cs.head? = some '-' then
      splitSqlAux (cs.dropWhile (fun x => x ≠ '\n')) in_single in_double
        (buf ++ c :: cs.takeWhile (fun x => x ≠ '\n')) stmts
    else if ¬in_single ∧ ¬in_double ∧ c = '/' ∧ cs.head? = some '*' then
      match hfc : findClose cs.tail with
      | none => flushStmt stmts (buf ++ c :: cs)
      | some (pre, rem) => splitSqlAux rem in_single in_double (buf ++ c :: '*' :: pre) stmts
    else if c = ';' ∧ ¬in_single ∧ ¬in_double then
      splitSqlAux cs in_single in_double [] (flushStmt stmts buf)
    else
      splitSqlAux cs in_single in_double (buf ++ [c]) stmts
termination_by cs _ _ _ _ => cs.length
decreasing_by
  · simp [List.length_tail]; omega
  · simp
  · simp [List.length_tail]; omega
  · simp
  · have hd : (cs.dropWhile (fun x => x ≠ '\n')).length ≤ cs.length :=
      (List.dropWhile_suffix (fun x => x ≠ '\n')).length_le
    simp at hd ⊢
    omega
  · have key : ∀ (l : List Char) (pr : List Char × List Char),
        findClose l = some pr → pr.2.length < l.length := by
      intro l
      induction l with
      | nil => intro pr h; simp [findClose] at h
      | cons x rest ih =>
        intro pr h
        unfold findClose at h
        by_cases hx : x = '*' ∧ rest.head? = some '/'
        · rw [if_pos hx] at h
          injection h with he
          rw [← he]
          simp [List.length_tail]
          omega
        · rw [if_neg hx] at h
          cases hfc2 : findClose rest with
          | none => rw [hfc2] at h; cases h
          | some pr2 =>
            rw [hfc2] at h
            injection h with he
            rw [← he]
            have := ih pr2 hfc2
            simp
            omega
    have hk := key cs.tail (pre, rem) hfc
    simp at hk ⊢
    omega
  · simp
  · simp

/-- `_split_sql_statements` (sql_parser.py). -/
def split_sql_statements (sql : String) : List String :=
  splitSqlAux sql.toList false false [] []

/-- The scanning modes named by the spec: outside everything, inside a
single-quoted string, inside a double-quoted identifier, inside a `--`
line comment, inside a `/* */` block comment. -/
inductive SplitMode where
  | normal
  | single
  | double
  | line
  | block
deriving DecidableEq, Repr

/-- The spec's splitting automaton, one character at a time: a `;` acts as
a terminator exactly in `normal` mode; quotes (with `''`/`""` escapes) and
comments only open from the modes the spec names. -/
def specSplitAux : List Char → SplitMode → List Char → List String → List String
  | [], _, buf, stmts => flushStmt stmts buf
  | c :: cs, m, buf, stmts =>
    match m with
    | .normal =>
      if c = '\'' then specSplitAux cs .single (buf ++ [c]) stmts
      else if c = '"' then specSplitAux cs .double (buf ++ [c]) stmts
      else if c = '-' ∧ cs.head? = some '-' then
        specSplitAux cs.tail .line (buf ++ [c, '-']) stmts
      else if c = '/' ∧ cs.head? = some '*' then
        specSplitAux cs.tail .block (buf ++ [c, '*']) stmts
      else if c = ';' then specSplitAux cs .normal [] (flushStmt stmts buf)
      else specSplitAux cs .normal (buf ++ [c]) stmts
    | .single =>
      if c = '\'' then
        if cs.head? = some '\'' then specSplitAux cs.tail .single (buf ++ [c, c]) stmts
        else specSplitAux cs .normal (buf ++ [c]) stmts
      else specSplitAux cs .single (buf ++ [c]) stmts
    | .double =>
      if c = '"' then
        if cs.head? = some '"' then specSplitAux cs.tail .double (buf ++ [c, c]) stmts
        else specSplitAux cs .normal (buf ++ [c]) stmts
      else specSplitAux cs .double (buf ++ [c]) stmts
    | .line =>
      if c = '\n' then specSplitAux cs .normal (buf ++ [c]) stmts
      else specSplitAux cs .line (buf ++ [c]) stmts
    | .block =>
      if c = '*' ∧ cs.head? = some '/' then specSplitAux cs.tail .normal (buf ++ [c, '/']) stmts
      else specSplitAux cs .block (buf ++ [c]) stmts
termination_by cs _ _ _ => cs.length
decreasing_by
  all_goals simp_wf
  all_goals omega

/-- The spec's statement splitter. -/
def specSplitStatements (sql : String) : List String :=
  specSplitAux sql.toList .normal [] []

/-- The `Index` record built by `_handle_create_index` from the parsed
statement. -/
def parsedIndex (ix : IndexAst) : Index :=
  { name := if ix.indexName = "" then none else some ix.indexName
    columns := ix.pairs.map Prod.fst
    column_names := ix.pairs.map Prod.snd
    expression_columns := (ix.pairs.filter (fun p => p.2 = none)).map Prod.fst
    unique := ix.uniqueFlag
    method := ix.method
    whereClause := ix.whereClause }

/-- Demonstration `CREATE INDEX` statement for claim C6. -/
def c6DemoIx : IndexAst :=
  { tableName := "a", indexName := "i1", pairs := [("c", some "c")]
    uniqueFlag := true, method := none, whereClause := none }

/-- Demonstration table owning the index `old`, for claim C6. -/
def c6DemoT : Table :=
  { newTable "b" with indexes := [
      { name := some "old", columns := ["c"], column_names := [some "c"],
        expression_columns := [], unique := false, method := none, whereClause := none }] }

/-! ### draw.io parsing (`drawio_parser.py`) -/

/-- `MAX_SEARCH_DEPTH` (drawio_parser.py line 12). -/
def MAX_SEARCH_DEPTH : Nat := 6

/-- `Cell` (drawio_parser.py): one `mxCell` of the diagram. -/
structure Cell where
  id : String
  value : String
  raw_value : String
  style : Option String
  vertex : Bool
  edge : Bool
  parent : Option String
  source : Option String
  target : Option String
deriving DecidableEq, Repr

/-- `ColumnContext` (drawio_parser.py). -/
structure ColumnContext where
  table : String
  column : String
deriving DecidableEq, Repr

/-- Prefix test on character lists (Python `str.startswith`). -/
def listIsPrefixOf : List Char → List Char → Bool
  | [], _ => true
  | _ :: _, [] => false
  | a :: as, b :: bs => a = b && listIsPrefixOf as bs

/-- Substring test on character lists (Python `in` on strings). -/
def containsSub (needle : List Char) : List Char → Bool
  | [] => listIsPrefixOf needle []
  | c :: rest => if listIsPrefixOf needle (c :: rest) then true else containsSub needle rest

/-- `_style_contains`: case-insensitive fragment containment, false for a
falsy style. -/
def style_contains (style : Option String) (fragment : String) : Bool :=
  optTruthy style &&
    containsSub ((pyLower fragment).toList) ((pyLower (style.getD "")).toList)

/-- `_value_is_label`: empty values and the `pk`/`fk` tokens are labels. -/
def value_is_label (value : String) : Bool :=
  if value = "" then true
  else
    let normalized := pyLower (pyStrip value)
    normalized = "pk" ∨ normalized = "fk"

/-- The `text;`-note test of the column-map loop:
`cell.style and cell.style.strip().lower().startswith("text;")`. -/
def styleIsTextNote (style : Option String) : Bool :=
  optTruthy style &&
    listIsPrefixOf ("text;".toList) ((pyLower (pyStrip (style.getD ""))).toList)

/-- `_find_table_ancestor`: walk the `parent` chain from `current`,
stopping on a falsy id, a repeated id (the `seen` set), a missing cell or
a falsy parent; return the first id that is a table anchor.  The fuel
only bounds the loop, which Python bounds through `seen`. -/
def find_table_ancestor : Nat → List String → Option String → List (String × Cell) →
    List (String × String) → Option String
  | 0, _, _, _, _ => none
  | fuel + 1, seen, current, cells, table_ids =>
    if ¬ optTruthy current then none
    else
      let cur := current.getD ""
      if cur ∈ seen then none
      else if (alookup table_ids cur).isSome then some cur
      else
        match alookup cells cur with
        | none => none
        | some cell =>
          if ¬ optTruthy cell.parent then none
          else find_table_ancestor fuel (seen ++ [cur]) cell.parent cells table_ids

/-- `_resolve_column_name`: breadth-first search from the cell over
children, parent and siblings, skipping visited nodes and nodes deeper
than `MAX_SEARCH_DEPTH`, returning the first non-label value.  The fuel
only bounds the loop, which Python bounds through `visited`. -/
def resolve_column_name : Nat → List (String × Nat) → List String → String →
    List (String × Cell) → List (String × List String) → String
  | 0, _, _, _, _, _ => ""
  | _ + 1, [], _, _, _, _ => ""
  | fuel + 1, (node_id, depth) :: rest, visited, table_id, cells, children =>
    if node_id ∈ visited ∨ depth > MAX_SEARCH_DEPTH then
      resolve_column_name fuel rest visited table_id cells children
    else
      let visited1 := visited ++ [node_id]
      match alookup cells node_id with
      | none => resolve_column_name fuel rest visited1 table_id cells children
      | some node =>
        if node.value ≠ "" ∧ ¬ value_is_label node.value then node.value
        else
          let rest1 := rest ++ (((alookup children node_id).getD []).filter
            (fun cid => cid ∉ visited1)).map (fun cid => (cid, depth + 1))
          let parent_id := node.parent.getD ""
          if ¬ optTruthy node.parent ∨ parent_id = table_id then
            resolve_column_name fuel rest1 visited1 table_id cells children
          else
            let rest2 := rest1 ++ (if parent_id ∉ visited1 then [(parent_id, depth + 1)] else [])
            let rest3 := rest2 ++ (((alookup children parent_id).getD []).filter
              (fun sid => ¬ sid = node_id ∧ sid ∉ visited1)).map (fun sid => (sid, depth + 1))
            resolve_column_name fuel rest3 visited1 table_id cells children

/-- The `children` map: each truthy parent id maps to its child ids in
iteration order. -/
def childrenMap (cells : List (String × Cell)) : List (String × List String) :=
  cells.foldl (fun m kv =>
    if optTruthy kv.2.parent then
      let p := kv.2.parent.getD ""
      match alookup m p with
      | some _ => dictUpdate m p (fun l0 => l0 ++ [kv.1])
      | none => m ++ [(p, [kv.1])]
    else m) []

/-- The `table_ids` map: vertex cells whose style contains `shape=table`
and whose value is truthy. -/
def tableIdsOf (cells : List (String × Cell)) : List (String × String) :=
  cells.foldl (fun m kv =>
    if kv.2.vertex && style_contains kv.2.style "shape=table" && kv.2.value ≠ "" then
      dictSet m kv.1 kv.2.value
    else m) []

/-- The `column_map` loop of `parse_drawio_tables`: every non-edge,
non-table, non-note cell whose table ancestor resolves gets a column
context. -/
def column_map_build (cells : List (String × Cell)) : List (String × ColumnContext) :=
  let table_ids := tableIdsOf cells
  let children := childrenMap cells
  cells.foldl (fun cmap kv =>
    if kv.2.edge ∨ (alookup table_ids kv.1).isSome then cmap
    else if styleIsTextNote kv.2.style then cmap
    else
      match find_table_ancestor (cells.length + 2) [] (some kv.1) cells table_ids with
      | none => cmap
      | some tid =>
        if tid = "" then cmap
        else
          dictSet cmap kv.1
            { table := (alookup table_ids tid).getD ""
              column := resolve_column_name ((cells.length + 1) * (2 * cells.length + 2) + 2)
                [(kv.1, 0)] [] tid cells children }) []

/-- A parent chain in the cell dictionary: each listed id resolves to a
cell whose parent is the next id (or the anchor after the last). -/
def chainLinked (cells : List (String × Cell)) (anchor : String) : List String → Bool
  | [] => true
  | d :: rest =>
    (match alookup cells d with
      | none => false
      | some cell => cell.parent = some (rest.headD anchor)) && chainLinked cells anchor rest

/-- The number of parent hops from one id to another. -/
def parentHops : Nat → List (String × Cell) → String → String → Option Nat
  | 0, _, _, _ => none
  | fuel + 1, cells, cur, target =>
    if cur = target then some 0
    else
      match alookup cells cur with
      | none => none
      | some cell =>
        match cell.parent with
        | none => none
        | some p => (parentHops fuel cells p target).map (fun n => n + 1)

/-- Demonstration diagram for claim C7: a table anchor `t0` and a chain
`c1 … c8` of cells, `c8` eight parent hops from the anchor. -/
def c7Cells : List (String × Cell) :=
  [ ("t0", { id := "t0", value := "T", raw_value := "T", style := some "shape=table;"
             vertex := true, edge := false, parent := some "1", source := none, target := none })
  , ("c1", { id := "c1", value := "", raw_value := "", style := none
             vertex := true, edge := false, parent := some "t0", source := none, target := none })
  , ("c2", { id := "c2", value := "", raw_value := "", style := none
             vertex := true, edge := false, parent := some "c1", source := none, target := none })
  , ("c3", { id := "c3", value := "", raw_value := "", style := none
             vertex := true, edge := false, parent := some "c2", source := none, target := none })
  , ("c4", { id := "c4", value := "", raw_value := "", style := none
             vertex := true, edge := false, parent := some "c3", source := none, target := none })
  , ("c5", { id := "c5", value := "", raw_value := "", style := none
             vertex := true, edge := false, parent := some "c4", source := none, target := none })
  , ("c6", { id := "c6", value := "", raw_value := "", style := none
             vertex := true, edge := false, parent := some "c5", source := none, target := none })
  , ("c7", { id := "c7", value := "", raw_value := "", style := none
             vertex := true, edge := false, parent := some "c6", source := none, target := none })
  , ("c8", { id := "c8", value := "deep_col", raw_value := "deep_col", style := none
             vertex := true, edge := false, parent := some "c7", source := none, target := none }) ]

/-! ### Basic dictionary lemmas -/

theorem alookup_dictRemove_self {α : Type} (m : List (String × α)) (k : String) :
    alookup (dictRemove m k) k = none := by
  induction m with
  | nil => rfl
  | cons kv rest ih =>
    by_cases h : kv.1 = k
    · simp [dictRemove, h, ih]
    · simp [dictRemove, h, alookup, ih]

theorem alookup_dictRemove_ne {α : Type} (m : List (String × α)) (k' k : String) (h : k' ≠ k) :
    alookup (dictRemove m k') k = alookup m k := by
  induction m with
  | nil => rfl
  | cons kv rest ih =>
    by_cases hk : kv.1 = k'
    · have hkk : kv.1 ≠ k := fun hc => h (hk ▸ hc)
      simp [dictRemove, hk, alookup, hkk, h, ih]
    · simp [dictRemove, hk, alookup, ih]

theorem alookup_dictRemove_none {α : Type} (m : List (String × α)) (k' k : String)
    (h : alookup m k = none) : alookup (dictRemove m k') k = none := by
  by_cases hk : k' = k
  · simpa [hk] using alookup_dictRemove_self m k
  · simpa [alookup_dictRemove_ne m k' k hk] using h

theorem alookup_map_value {α β : Type} (f : α → β) (m : List (String × α)) (k : String) :
    alookup (m.map (fun kv => (kv.1, f kv.2))) k = (alookup m k).map f := by
  induction m with
  | nil => rfl
  | cons kv rest ih =>
    by_cases h : kv.1 = k
    · simp [alookup, h]
    · simp [alookup, h, ih]

theorem alookup_append_right {α : Type} (m : List (String × α)) (k k' : String) (v : α)
    (h : k' ≠ k) : alookup (m ++ [(k', v)]) k = alookup m k := by
  induction m with
  | nil => simp [alookup, h]
  | cons kv rest ih =>
    by_cases hk : kv.1 = k
    · simp [alookup, hk]
    · simp [alookup, hk, ih]

theorem alookup_dictUpdate_ne {α : Type} (m : List (String × α)) (k' k : String) (f : α → α)
    (h : k' ≠ k) : alookup (dictUpdate m k' f) k = alookup m k := by
  induction m with
  | nil => rfl
  | cons kv rest ih =>
    by_cases hk : kv.1 = k'
    · have hkk : kv.1 ≠ k := fun hc => h (hk ▸ hc)
      simp [dictUpdate, hk, alookup, hkk, h, ih]
    · simp [dictUpdate, hk, alookup, ih]

theorem alookup_dictUpdate_self {α : Type} (m : List (String × α)) (k : String) (f : α → α) :
    alookup (dictUpdate m k f) k = (alookup m k).map f := by
  induction m with
  | nil => rfl
  | cons kv rest ih =>
    by_cases hk : kv.1 = k
    · simp [dictUpdate, hk, alookup]
    · simp [dictUpdate, hk, alookup, ih]

theorem alookup_setdefault_self (s : Schema) (name : String) :
    alookup (setdefaultTable s name).1 name =
      some ((alookup s name).getD (newTable name)) := by
  unfold setdefaultTable
  cases h : alookup s name with
  | some t => simp [h]
  | none =>
    simp only [h]
    induction s with
    | nil => simp [alookup]
    | cons kv rest ih =>
      by_cases hk : kv.1 = name
      · simp [alookup, hk] at h
      · simp [alookup, hk] at h ⊢
        exact ih h

theorem alookup_setdefault_ne (s : Schema) (name k : String) (h : name ≠ k) :
    alookup (setdefaultTable s name).1 k = alookup s k := by
  unfold setdefaultTable
  cases hl : alookup s name with
  | some t => simp
  | none => simpa using alookup_append_right s k name (newTable name) h

/-! ### Drop-table lemmas -/

theorem popRemovedFkNames_foreign_keys (removed : List ForeignKey) (t : Table) :
    (popRemovedFkNames removed t).foreign_keys = t.foreign_keys := by
  induction removed generalizing t with
  | nil => rfl
  | cons fk rest ih =>
    by_cases h : optTruthy fk.name
    · simpa [popRemovedFkNames, h, List.foldl_cons] using
        ih { t with constraint_types := dictRemove t.constraint_types (pyLower (fk.name.getD "")) }
    · simpa [popRemovedFkNames, h, List.foldl_cons] using ih t

theorem popRemovedFkNames_ct_mono (removed : List ForeignKey) (t : Table) (k : String)
    (h : alookup t.constraint_types k = none) :
    alookup (popRemovedFkNames removed t).constraint_types k = none := by
  induction removed generalizing t with
  | nil => simpa [popRemovedFkNames] using h
  | cons fk rest ih =>
    by_cases htr : optTruthy fk.name
    · have step := ih { t with constraint_types := dictRemove t.constraint_types (pyLower (fk.name.getD "")) }
        (alookup_dictRemove_none _ _ _ h)
      simpa [popRemovedFkNames, htr, List.foldl_cons] using step
    · have step := ih t h
      simpa [popRemovedFkNames, htr, List.foldl_cons] using step

theorem popRemovedFkNames_ct_none (removed : List ForeignKey) (t : Table) (fk : ForeignKey)
    (hmem : fk ∈ removed) (htr : optTruthy fk.name = true) :
    alookup (popRemovedFkNames removed t).constraint_types (pyLower (fk.name.getD "")) = none := by
  induction removed generalizing t with
  | nil => cases hmem
  | cons fk0 rest ih =>
    rcases List.mem_cons.mp hmem with heq | hmem'
    · subst heq
      have step := popRemovedFkNames_ct_mono rest
        { t with constraint_types := dictRemove t.constraint_types (pyLower (fk.name.getD "")) }
        (pyLower (fk.name.getD "")) (alookup_dictRemove_self _ _)
      simpa [popRemovedFkNames, htr, List.foldl_cons] using step
    · by_cases h0 : optTruthy fk0.name
      · have step := ih { t with constraint_types := dictRemove t.constraint_types (pyLower (fk0.name.getD "")) } hmem'
        simpa [popRemovedFkNames, h0, List.foldl_cons] using step
      · have step := ih t hmem'
        simpa [popRemovedFkNames, h0, List.foldl_cons] using step

theorem stripDroppedRefs_no_refs (table_name : String) (t : Table) :
    (stripDroppedRefs table_name t).foreign_keys.all (fun fk => fk.ref_table ≠ table_name) = true := by
  unfold stripDroppedRefs
  by_cases h : t.foreign_keys.filter (fun fk => fk.ref_table = table_name) = ([] : List ForeignKey)
  · simp only [h, if_pos rfl]
    rw [List.all_eq_true]
    intro fk hmem
    by_contra hc
    have hr : fk.ref_table = table_name := by simpa using hc
    have : fk ∈ t.foreign_keys.filter (fun fk => fk.ref_table = table_name) :=
      List.mem_filter.mpr ⟨hmem, by simpa using hr⟩
    simp [h] at this
  · simp only [if_neg h, popRemovedFkNames_foreign_keys]
    rw [List.all_eq_true]
    intro fk hmem
    simpa using (List.mem_filter.mp hmem).2

theorem handle_drop_table_clean (s : Schema) (T : String)
    (hlive : (alookup s T).isSome = true) :
    alookup (handle_drop_table T s) T = none ∧ noFkRefs (handle_drop_table T s) T = true := by
  unfold handle_drop_table
  simp only [hlive, if_pos]
  constructor
  · rw [alookup_map_value (stripDroppedRefs T) (dictRemove s T) T]
    simp [alookup_dictRemove_self]
  · unfold noFkRefs
    rw [List.all_eq_true]
    intro kv hmem
    rcases List.mem_map.mp hmem with ⟨kv0, _, hkv⟩
    subst hkv
    simpa using stripDroppedRefs_no_refs T kv0.2

/-! ### Claim C1 -/

/-- Claim C1 counterexample: replaying `CREATE TABLE a (x INT REFERENCES
t(id))` and then `DROP TABLE t` leaves a foreign key with
`ref_table = "t"` in the schema, because a `DROP TABLE` of a name that is
not a live key returns early and strips nothing.  The claim, as stated,
requires that immediately after any `DROP TABLE t` no foreign key has
`ref_table = "t"`. -/
theorem c1_counterexample_drop_of_undeclared_table :
    noFkRefs (applyStmt (replay c1DemoStmts) (Stmt.dropTable "t")) "t" = false := by decide

/-- Claim C1 (amended): at any point of a replay, applying a `DROP TABLE`
of a table `T` that is live in the current schema yields a schema in
which `T`'s key is gone and no foreign key anywhere has `ref_table = T`.
(For a `T` that is not live, the drop is a no-op and pre-existing
forward references to `T` survive, as the counterexample shows.) -/
theorem c1_drop_table_no_dangling_refs_amended (stmts : List Stmt) (T : String)
    (hlive : (alookup (replay stmts) T).isSome = true) :
    alookup (applyStmt (replay stmts) (Stmt.dropTable T)) T = none ∧
    noFkRefs (applyStmt (replay stmts) (Stmt.dropTable T)) T = true :=
  handle_drop_table_clean (replay stmts) T hlive

/-- Witness for claim C1's amended theorem at a concrete replay. -/
theorem c1_drop_table_no_dangling_refs_witness :
    (alookup (replay c1WitnessStmts) "u").isSome = true ∧
    (alookup (applyStmt (replay c1WitnessStmts) (Stmt.dropTable "u")) "u" = none ∧
     noFkRefs (applyStmt (replay c1WitnessStmts) (Stmt.dropTable "u")) "u" = true) :=
  ⟨by decide, c1_drop_table_no_dangling_refs_amended c1WitnessStmts "u" (by decide)⟩

/-! ### Claim C2 -/

/-- Claim C2: for every schema, replaying a `CREATE TABLE name (...)`
immediately followed by `DROP TABLE name` leaves no trace of the table:
its key is gone, no foreign key anywhere references `name`, and for
every surviving table the registry entry of each of its pre-drop foreign
keys that referenced `name` under a truthy constraint name is gone. -/
theorem c2_create_then_drop_leaves_no_trace (s : Schema) (name : String)
    (elements : List TableElement) (hints : List FkHint) :
    alookup (handle_drop_table name (handle_create_table s name elements hints)) name = none ∧
    noFkRefs (handle_drop_table name (handle_create_table s name elements hints)) name = true ∧
    (∀ k t1 t2,
      alookup (handle_create_table s name elements hints) k = some t1 →
      alookup (handle_drop_table name (handle_create_table s name elements hints)) k = some t2 →
      ∀ fk ∈ t1.foreign_keys, fk.ref_table = name → optTruthy fk.name = true →
        alookup t2.constraint_types (pyLower (fk.name.getD "")) = none) := by
  have hlive : (alookup (handle_create_table s name elements hints) name).isSome = true := by
    unfold handle_create_table
    rw [alookup_dictUpdate_self]
    rw [alookup_setdefault_self]
    rfl
  obtain ⟨hgone, hrefs⟩ := handle_drop_table_clean (handle_create_table s name elements hints) name hlive
  refine ⟨hgone, hrefs, ?_⟩
  intro k t1 t2 h1 h2 fk hmem href htruthy
  by_cases hk : k = name
  · subst hk
    rw [hgone] at h2
    cases h2
  · have hne : name ≠ k := fun hc => hk hc.symm
    have h2' : alookup (handle_drop_table name (handle_create_table s name elements hints)) k =
        some (stripDroppedRefs name t1) := by
      unfold handle_drop_table
      simp only [hlive, if_pos]
      rw [alookup_map_value (stripDroppedRefs name) _ k]
      rw [alookup_dictRemove_ne _ name k hne, h1]
      rfl
    rw [h2'] at h2
    cases h2
    have hremoved : fk ∈ t1.foreign_keys.filter (fun fk => fk.ref_table = name) :=
      List.mem_filter.mpr ⟨hmem, by simpa using href⟩
    have hne2 : t1.foreign_keys.filter (fun fk => fk.ref_table = name) ≠ ([] : List ForeignKey) := by
      intro hc
      rw [hc] at hremoved
      cases hremoved
    unfold stripDroppedRefs
    simp only [if_neg hne2]
    exact popRemovedFkNames_ct_none _ _ fk hremoved htruthy

/-- Witness for claim C2 at a concrete schema: after `CREATE TABLE t` +
`DROP TABLE t`, the key `t` is gone and table `a`'s registry no longer
holds `fk1`. -/
theorem c2_create_then_drop_witness :
    alookup c2S2 "t" = none ∧
    alookup ((alookup c2S2 "a").getD (newTable "a")).constraint_types "fk1" = none := by
  obtain ⟨hgone, _, hreg⟩ := c2_create_then_drop_leaves_no_trace c2DemoSchema "t" [] []
  refine ⟨hgone, ?_⟩
  have h := hreg "a" ((alookup c2S1 "a").getD (newTable "a")) ((alookup c2S2 "a").getD (newTable "a"))
    (by decide) (by decide)
    { columns := ["x"], ref_table := "t", ref_columns := ["id"], name := some "fk1" }
    (by decide) (by decide) (by decide)
  have hk : pyLower ((some "fk1" : Option String).getD "") = "fk1" := by decide
  simpa [hk] using h

/-! ### Claim C10 -/

theorem mem_setAdd_of_mem {α : Type} [DecidableEq α] {l : List α} {x y : α} (h : x ∈ l) :
    x ∈ setAdd l y := by
  unfold setAdd
  by_cases hy : y ∈ l
  · simpa [hy] using h
  · simp [hy, List.mem_append, h]

theorem mem_foldl_setAdd_of_mem {α : Type} [DecidableEq α] (l : List α) (acc : List α) (x : α)
    (h : x ∈ acc ∨ x ∈ l) : x ∈ l.foldl setAdd acc := by
  induction l generalizing acc with
  | nil => simpa using h.resolve_right (by simp)
  | cons y rest ih =>
    apply ih
    rcases h with hacc | hl
    · exact Or.inl (mem_setAdd_of_mem hacc)
    · rcases List.mem_cons.mp hl with heq | hrest
      · subst heq
        left
        unfold setAdd
        by_cases hy : x ∈ acc
        · simp [hy]
        · simp [hy]
      · exact Or.inr hrest

theorem mem_setOfList_of_mem {α : Type} [DecidableEq α] {l : List α} {x : α} (h : x ∈ l) :
    x ∈ setOfList l :=
  mem_foldl_setAdd_of_mem l [] x (Or.inr h)

theorem foldl_dictRemoveLower_mono (ns : List String) (ct : List (String × String)) (k : String)
    (h : alookup ct k = none) :
    alookup (ns.foldl (fun m (n : String) => dictRemove m (pyLower n)) ct) k = none := by
  induction ns generalizing ct with
  | nil => simpa using h
  | cons n rest ih => exact ih _ (alookup_dictRemove_none _ _ _ h)

theorem foldl_dictRemoveLower_mem (ns : List String) (ct : List (String × String)) (n : String)
    (h : n ∈ ns) :
    alookup (ns.foldl (fun m (n : String) => dictRemove m (pyLower n)) ct) (pyLower n) = none := by
  induction ns generalizing ct with
  | nil => cases h
  | cons n0 rest ih =>
    rcases List.mem_cons.mp h with heq | hrest
    · subst heq
      exact foldl_dictRemoveLower_mono rest _ _ (alookup_dictRemove_self _ _)
    · exact ih _ hrest

/-- Claim C10: dropping a column removes it (case-insensitively) from the
column list and the primary-key set, removes every foreign key of the
table whose local columns mention it, removes those keys' truthy names
from the constraint registry, keeps every foreign key that does not
mention the column, and leaves every other table of the schema
unchanged when invoked through an `ALTER TABLE ... DROP COLUMN` replay. -/
theorem c10_drop_column_characterization (t : Table) (column_name : String) :
    ((t.drop_column column_name).columns.map (fun c => c.name) =
      (t.columns.filter (fun c => pyLower c.name ≠ pyLower column_name)).map (fun c => c.name)) ∧
    ((t.drop_column column_name).primary_key =
      t.primary_key.filter (fun c => pyLower c ≠ pyLower column_name)) ∧
    ((t.drop_column column_name).foreign_keys =
      t.foreign_keys.filter (fun fk =>
        ! (fk.columns.map (fun c : String => pyLower c)).contains (pyLower column_name))) ∧
    (∀ fk ∈ t.foreign_keys, optTruthy fk.name = true →
      (fk.columns.map (fun c : String => pyLower c)).contains (pyLower column_name) = true →
      alookup (t.drop_column column_name).constraint_types (pyLower (fk.name.getD "")) = none) ∧
    (∀ (s : Schema) (T k : String), k ≠ T →
      alookup (handle_alter_table s T [AlterAction.dropColumnA column_name]) k = alookup s k) := by
  refine ⟨?_, ?_, ?_, ?_, ?_⟩
  · simp [Table.drop_column, Table.sync_primary_key_flags, List.map_map, Function.comp]
  · simp [Table.drop_column, Table.sync_primary_key_flags]
  · simp [Table.drop_column, Table.sync_primary_key_flags]
  · intro fk hmem htruthy hcontains
    have hfilter : fk ∈ t.foreign_keys.filter (fun fk => optTruthy fk.name &&
        (fk.columns.map (fun c : String => pyLower c)).contains (pyLower column_name)) := by
      refine List.mem_filter.mpr ⟨hmem, ?_⟩
      simp only [htruthy, Bool.true_and]
      exact hcontains
    have hmap : (fk.name.getD "") ∈ (t.foreign_keys.filter (fun fk => optTruthy fk.name &&
        (fk.columns.map (fun c : String => pyLower c)).contains (pyLower column_name))).map
          (fun fk => fk.name.getD "") :=
      List.mem_map.mpr ⟨fk, hfilter, rfl⟩
    have hset := mem_setOfList_of_mem hmap
    simp only [Table.drop_column, Table.sync_primary_key_flags]
    exact foldl_dictRemoveLower_mem _ _ _ hset
  · intro s T k hk
    have hTk : T ≠ k := fun hc => hk hc.symm
    show alookup (dictUpdate (List.foldl
        (fun (acc : Schema × String) a => applyAlterAction acc.1 acc.2 a)
        ((setdefaultTable s T).1, T) [AlterAction.dropColumnA column_name]).1
        (List.foldl (fun (acc : Schema × String) a => applyAlterAction acc.1 acc.2 a)
        ((setdefaultTable s T).1, T) [AlterAction.dropColumnA column_name]).2
        (fun t => t.sync_primary_key_flags)) k = alookup s k
    simp only [List.foldl_cons, List.foldl_nil, applyAlterAction]
    rw [alookup_dictUpdate_ne _ _ _ _ hTk, alookup_dictUpdate_ne _ _ _ _ hTk,
      alookup_setdefault_ne s T k hTk]

/-- Witness for claim C10 on a concrete table: dropping `b` removes the
column, its primary-key entry, the mentioning foreign key and its
registry entry, while the unrelated table `z` is untouched. -/
theorem c10_drop_column_witness :
    alookup (({ newTable "t" with
        columns := [⟨"a", "INT", true, false⟩, ⟨"b", "INT", true, false⟩]
        primary_key := ["b"]
        foreign_keys := [{ columns := ["b"], ref_table := "u", ref_columns := ["id"], name := some "fkb" }]
        constraint_types := [("fkb", "foreign_key")] } : Table).drop_column "b").constraint_types "fkb" = none ∧
    alookup (handle_alter_table [("z", newTable "z")] "t" [AlterAction.dropColumnA "b"]) "z" =
      some (newTable "z") := by
  obtain ⟨_, _, _, hreg, hother⟩ := c10_drop_column_characterization
    ({ newTable "t" with
        columns := [⟨"a", "INT", true, false⟩, ⟨"b", "INT", true, false⟩]
        primary_key := ["b"]
        foreign_keys := [{ columns := ["b"], ref_table := "u", ref_columns := ["id"], name := some "fkb" }]
        constraint_types := [("fkb", "foreign_key")] } : Table) "b"
  constructor
  · have h := hreg { columns := ["b"], ref_table := "u", ref_columns := ["id"], name := some "fkb" }
      (by decide) (by decide) (by decide)
    have hk : pyLower ((some "fkb" : Option String).getD "") = "fkb" := by decide
    simpa [hk] using h
  · have h := hother [("z", newTable "z")] "t" "z" (by decide)
    rw [h]
    decide

/-! ### Rename round-trip lemmas (claim C3) -/

theorem alookup_append_of_none {α : Type} (m l : List (String × α)) (k : String)
    (h : alookup m k = none) : alookup (m ++ l) k = alookup l k := by
  induction m with
  | nil => rfl
  | cons kv rest ih =>
    by_cases hk : kv.1 = k
    · simp [alookup, hk] at h
    · simp [alookup, hk] at h ⊢
      exact ih h

theorem dictRemove_of_alookup_none {α : Type} (m : List (String × α)) (k : String)
    (h : alookup m k = none) : dictRemove m k = m := by
  induction m with
  | nil => rfl
  | cons kv rest ih =>
    by_cases hk : kv.1 = k
    · simp [alookup, hk] at h
    · simp [alookup, hk] at h
      simp [dictRemove, hk, ih h]

theorem dictSet_of_none {α : Type} (m : List (String × α)) (k : String) (v : α)
    (h : alookup m k = none) : dictSet m k v = m ++ [(k, v)] := by
  simp [dictSet, h]

theorem mem_of_alookup {α : Type} (m : List (String × α)) (k : String) (v : α)
    (h : alookup m k = some v) : (k, v) ∈ m := by
  induction m with
  | nil => cases h
  | cons kv rest ih =>
    obtain ⟨k1, v1⟩ := kv
    by_cases hk : k1 = k
    · subst hk
      simp [alookup] at h
      subst h
      exact List.mem_cons_self _ _
    · simp only [alookup, if_neg hk] at h
      exact List.mem_cons_of_mem _ (ih h)

theorem mem_of_mem_dictRemove {α : Type} {m : List (String × α)} {k : String}
    {kv : String × α} (h : kv ∈ dictRemove m k) : kv ∈ m := by
  induction m with
  | nil => simp [dictRemove] at h
  | cons kv0 rest ih =>
    by_cases hk : kv0.1 = k
    · simp only [dictRemove, if_pos hk] at h
      exact List.mem_cons_of_mem _ (ih h)
    · simp only [dictRemove, if_neg hk] at h
      rcases List.mem_cons.mp h with heq | hmem
      · exact heq ▸ List.mem_cons_self _ _
      · exact List.mem_cons_of_mem _ (ih hmem)

theorem alookup_none_of_not_mem_keys {α : Type} (m : List (String × α)) (k : String)
    (h : k ∉ m.map Prod.fst) : alookup m k = none := by
  induction m with
  | nil => rfl
  | cons kv rest ih =>
    simp only [List.map_cons, List.mem_cons] at h
    push_neg at h
    have h1 : kv.1 ≠ k := fun hc => h.1 hc.symm
    simp [alookup, h1, ih h.2]

theorem noFkRefs_spec {s : Schema} {B : String} (h : noFkRefs s B = true) :
    ∀ kv ∈ s, ∀ fk ∈ kv.2.foreign_keys, fk.ref_table ≠ B := by
  intro kv hkv fk hfk
  have h1 := (List.all_eq_true.mp h) kv hkv
  have h2 := (List.all_eq_true.mp h1) fk hfk
  simpa using h2

theorem fkRetarget_roundtrip (A B : String) (fk : ForeignKey) (h : fk.ref_table ≠ B) :
    fkRetarget B A (fkRetarget A B fk) = fk := by
  by_cases hA : fk.ref_table = A
  · cases fk
    simp_all [fkRetarget]
  · cases fk
    simp_all [fkRetarget]

theorem tableRetarget_roundtrip (A B : String) (t : Table)
    (h : ∀ fk ∈ t.foreign_keys, fk.ref_table ≠ B) :
    tableRetarget B A (tableRetarget A B t) = t := by
  unfold tableRetarget
  cases t with
  | mk name columns primary_key foreign_keys constraint_types primary_key_name indexes =>
    simp only [List.map_map]
    congr 1
    rw [List.map_congr_left]
    · exact List.map_id _
    · intro fk hfk
      exact fkRetarget_roundtrip A B fk (h fk hfk)

theorem dictRemove_append {α : Type} (m l : List (String × α)) (k : String) :
    dictRemove (m ++ l) k = dictRemove m k ++ dictRemove l k := by
  induction m with
  | nil => simp [dictRemove]
  | cons kv rest ih =>
    by_cases hk : kv.1 = k
    · simp [dictRemove, hk, ih]
    · simp [dictRemove, hk, ih]

theorem rename_table_eq_of_lookup (s : Schema) (old_name new_name : String) (t : Table)
    (h : alookup s old_name = some t)
    (hnone : alookup (dictRemove s old_name) new_name = none) :
    rename_table s old_name new_name =
      (dictRemove s old_name).map (fun kv => (kv.1, tableRetarget old_name new_name kv.2)) ++
        [(new_name, tableRetarget old_name new_name { t with name := new_name })] := by
  unfold rename_table
  rw [h]
  dsimp only
  rw [dictSet_of_none _ _ _ hnone]
  simp [List.map_append]

theorem rename_roundtrip_eq (s : Schema) (A B : String) (tA : Table)
    (hA : alookup s A = some tA) (hB : alookup s B = none)
    (hnoref : noFkRefs s B = true) :
    rename_table (rename_table s A B) B A = dictRemove s A ++ [(A, { tA with name := A })] := by
  have hrm : alookup (dictRemove s A) B = none := alookup_dictRemove_none s A B hB
  have hstep1 := rename_table_eq_of_lookup s A B tA hA hrm
  have hmapB : alookup ((dictRemove s A).map (fun kv => (kv.1, tableRetarget A B kv.2))) B = none := by
    rw [alookup_map_value (tableRetarget A B) (dictRemove s A) B, hrm]
    rfl
  have hmapA : alookup ((dictRemove s A).map (fun kv => (kv.1, tableRetarget A B kv.2))) A = none := by
    rw [alookup_map_value (tableRetarget A B) (dictRemove s A) A, alookup_dictRemove_self]
    rfl
  have hlookupB : alookup (rename_table s A B) B =
      some (tableRetarget A B { tA with name := B }) := by
    rw [hstep1, alookup_append_of_none _ _ _ hmapB]
    simp [alookup]
  have hremB : dictRemove (rename_table s A B) B =
      (dictRemove s A).map (fun kv => (kv.1, tableRetarget A B kv.2)) := by
    rw [hstep1, dictRemove_append, dictRemove_of_alookup_none _ _ hmapB]
    simp [dictRemove]
  have hnoneA : alookup (dictRemove (rename_table s A B) B) A = none := by
    rw [hremB]
    exact hmapA
  have hstep2 := rename_table_eq_of_lookup (rename_table s A B) B A
    (tableRetarget A B { tA with name := B }) hlookupB hnoneA
  rw [hstep2, hremB, List.map_map]
  congr 1
  · have hid : ∀ kv ∈ dictRemove s A,
        ((fun kv => (kv.1, tableRetarget B A kv.2)) ∘ (fun kv => (kv.1, tableRetarget A B kv.2))) kv = kv := by
      intro kv hkv
      have hmem : kv ∈ s := mem_of_mem_dictRemove hkv
      have hfk := noFkRefs_spec hnoref kv hmem
      simp only [Function.comp]
      rw [tableRetarget_roundtrip A B kv.2 hfk]
    rw [List.map_congr_left hid]
    exact List.map_id' _
  · have hfkA := noFkRefs_spec hnoref (A, tA) (mem_of_alookup s A tA hA)
    have hval : tableRetarget B A { tableRetarget A B { tA with name := B } with name := A } =
        { tA with name := A } := by
      have hr := tableRetarget_roundtrip A B tA hfkA
      cases tA
      simp_all [tableRetarget]
    rw [hval]

theorem foldl_dictSet_eq_append {α : Type} (pairs : List (String × α)) (init : List (String × α))
    (hdisj : ∀ p ∈ pairs, alookup init p.1 = none)
    (hnodup : (pairs.map Prod.fst).Nodup) :
    pairs.foldl (fun m p => dictSet m p.1 p.2) init = init ++ pairs := by
  induction pairs generalizing init with
  | nil => simp
  | cons p rest ih =>
    simp only [List.foldl_cons]
    rw [dictSet_of_none _ _ _ (hdisj p (List.mem_cons_self _ _))]
    simp only [List.map_cons, List.nodup_cons] at hnodup
    rw [ih (init ++ [p]) ?_ hnodup.2]
    · simp
    · intro q hq
      rw [alookup_append_of_none _ _ _ (hdisj q (List.mem_cons_of_mem _ hq))]
      have hne : p.1 ≠ q.1 := by
        intro hc
        exact hnodup.1 (hc ▸ List.mem_map_of_mem Prod.fst hq)
      simp [alookup, hne]

theorem snapshot_tables_eq_snapAssoc (s : Schema)
    (hnodup : (s.map (fun kv => normIdent kv.1)).Nodup) :
    (snapshot_from_schema s).tables = snapAssoc s := by
  unfold snapshot_from_schema snapAssoc
  have hfold : s.foldl (fun tables kv => dictSet tables (normIdent kv.1) (tableSummaryOf kv.1 kv.2)) [] =
      (s.map (fun kv => (normIdent kv.1, tableSummaryOf kv.1 kv.2))).foldl
        (fun m p => dictSet m p.1 p.2) [] := by
    rw [List.foldl_map]
  rw [hfold, foldl_dictSet_eq_append]
  · simp
  · intro p hp
    rfl
  · rw [List.map_map]
    simpa [Function.comp] using hnodup

theorem tableSummaryOf_name_irrelevant (k : String) (t : Table) (n : String) :
    tableSummaryOf k { t with name := n } = tableSummaryOf k t := rfl

theorem alookup_snapAssoc_remove (s : Schema) (A : String) (tA : Table)
    (hA : alookup s A = some tA)
    (hnodup : (s.map (fun kv => normIdent kv.1)).Nodup) (K : String) :
    alookup (snapAssoc (dictRemove s A) ++ [(normIdent A, tableSummaryOf A tA)]) K =
      alookup (snapAssoc s) K := by
  induction s with
  | nil => cases hA
  | cons kv rest ih =>
    simp only [List.map_cons, List.nodup_cons] at hnodup
    by_cases hk : kv.1 = A
    · have htA : kv.2 = tA := by
        simp [alookup, hk] at hA
        exact hA
      have hrestA : alookup rest A = none := by
        apply alookup_none_of_not_mem_keys
        intro hmem
        apply hnodup.1
        rw [hk]
        rcases List.mem_map.mp hmem with ⟨q, hq, hqe⟩
        have : normIdent q.1 = normIdent A := by rw [hqe]
        rw [← this]
        exact List.mem_map_of_mem _ hq
      rw [show dictRemove (kv :: rest) A = dictRemove rest A by simp [dictRemove, hk]]
      rw [dictRemove_of_alookup_none rest A hrestA]
      by_cases hK : K = normIdent A
      · subst hK
        have hnone : alookup (snapAssoc rest) (normIdent A) = none := by
          apply alookup_none_of_not_mem_keys
          intro hmem
          apply hnodup.1
          rw [hk]
          unfold snapAssoc at hmem
          rw [List.map_map] at hmem
          simpa [Function.comp] using hmem
        rw [alookup_append_of_none _ _ _ hnone]
        simp [alookup, snapAssoc, hk, htA]
      · have hKne : normIdent A ≠ K := fun hc => hK hc.symm
        rw [alookup_append_right _ _ _ _ hKne]
        have hKne2 : normIdent kv.1 ≠ K := by rw [hk]; exact hKne
        simp [snapAssoc, alookup, hKne2]
    · have hrest : alookup rest A = some tA := by
        simpa [alookup, hk] using hA
      have hrm : dictRemove (kv :: rest) A = kv :: dictRemove rest A := by
        simp [dictRemove, hk]
      rw [hrm]
      by_cases hK : normIdent kv.1 = K
      · simp [snapAssoc, alookup, hK]
      · simp only [snapAssoc, List.map_cons, List.cons_append, alookup, if_neg hK]
        exact ih hrest hnodup.2

theorem snapshotPyEq_of_lookup_eq (a b : SchemaSnapshot)
    (h : ∀ k, alookup a.tables k = alookup b.tables k) : snapshotPyEq a b := by
  constructor
  · intro k
    rw [h k]
  · intro k ta tb h1 h2
    rw [h k, h2] at h1
    cases h1
    exact ⟨rfl, fun x => Iff.rfl, fun x => Iff.rfl, fun x => Iff.rfl⟩

theorem dictRemove_sublist {α : Type} (m : List (String × α)) (k : String) :
    (dictRemove m k).Sublist m := by
  induction m with
  | nil => simp [dictRemove]
  | cons kv rest ih =>
    by_cases hk : kv.1 = k
    · simpa [dictRemove, hk] using ih.cons kv
    · simpa [dictRemove, hk] using ih.cons₂ kv

theorem key_ne_of_mem_dictRemove {α : Type} {m : List (String × α)} {k : String}
    {kv : String × α} (h : kv ∈ dictRemove m k) : kv.1 ≠ k := by
  induction m with
  | nil => simp [dictRemove] at h
  | cons kv0 rest ih =>
    by_cases hk : kv0.1 = k
    · simp only [dictRemove, if_pos hk] at h
      exact ih h
    · simp only [dictRemove, if_neg hk] at h
      rcases List.mem_cons.mp h with heq | hmem
      · rw [heq]; exact hk
      · exact ih hmem

/-! ### Claim C3 -/

/-- Claim C3 counterexample: the schema holds table `a` and no table `b`,
yet renaming `a` to `b` and back rewrites the unrelated forward
reference of table `c` (which pointed at `b`) into a reference to `a`,
so the final snapshot differs from the original one. -/
theorem c3_counterexample_forward_reference_to_b :
    (alookup c3DemoSchema "a").isSome = true ∧ alookup c3DemoSchema "b" = none ∧
    ¬ snapshotPyEq (snapshot_from_schema (rename_table (rename_table c3DemoSchema "a" "b") "b" "a"))
        (snapshot_from_schema c3DemoSchema) := by
  refine ⟨by decide, by decide, ?_⟩
  rintro ⟨-, hpt⟩
  have h := hpt "c"
    ((alookup (snapshot_from_schema (rename_table (rename_table c3DemoSchema "a" "b") "b" "a")).tables "c").getD
      (tableSummaryOf "c" (newTable "c")))
    ((alookup (snapshot_from_schema c3DemoSchema).tables "c").getD (tableSummaryOf "c" (newTable "c")))
    (by decide) (by decide)
  obtain ⟨-, -, hfk, -⟩ := h
  have hin : ({ local_columns := ["x"], ref_table := "a", ref_columns := [] } : ForeignKeySummary) ∈
      ((alookup (snapshot_from_schema (rename_table (rename_table c3DemoSchema "a" "b") "b" "a")).tables "c").getD
        (tableSummaryOf "c" (newTable "c"))).foreign_keys := by decide
  have hout := (hfk _).mp hin
  revert hout
  decide

/-- Claim C3 (amended): renaming table `A` to `B` and back on a schema
that holds `A`, holds no `B`, holds no foreign key referencing `B`, and
whose normalized table keys are pairwise distinct, yields a schema whose
canonical snapshot equals (as Python dict/set equality) the snapshot of
the original schema. -/
theorem c3_rename_roundtrip_snapshot (s : Schema) (A B : String) (tA : Table)
    (hA : alookup s A = some tA) (hB : alookup s B = none)
    (hnoref : noFkRefs s B = true)
    (hnodup : (s.map (fun kv => normIdent kv.1)).Nodup) :
    snapshotPyEq (snapshot_from_schema (rename_table (rename_table s A B) B A))
      (snapshot_from_schema s) := by
  have hr := rename_roundtrip_eq s A B tA hA hB hnoref
  apply snapshotPyEq_of_lookup_eq
  intro K
  rw [hr]
  have hsubnodup : ((dictRemove s A).map (fun kv => normIdent kv.1)).Nodup :=
    hnodup.sublist ((dictRemove_sublist s A).map _)
  have hnotmem : normIdent A ∉ (dictRemove s A).map (fun kv => normIdent kv.1) := by
    intro hmem
    rcases List.mem_map.mp hmem with ⟨kv, hkv, hkeq⟩
    have h1 : kv ∈ s := mem_of_mem_dictRemove hkv
    have h2 : (A, tA) ∈ s := mem_of_alookup s A tA hA
    have h3 : kv = (A, tA) := List.inj_on_of_nodup_map hnodup h1 h2 (by simpa using hkeq)
    have h4 : kv.1 = A := by rw [h3]
    exact key_ne_of_mem_dictRemove hkv h4
  have hnodup2 : (((dictRemove s A ++ [(A, { tA with name := A })]) : Schema).map
      (fun kv => normIdent kv.1)).Nodup := by
    rw [List.map_append, List.nodup_append]
    refine ⟨hsubnodup, List.nodup_singleton _, ?_⟩
    intro x hx hx2
    simp only [List.map_cons, List.map_nil, List.mem_singleton] at hx2
    rw [hx2] at hx
    exact hnotmem hx
  rw [snapshot_tables_eq_snapAssoc _ hnodup2, snapshot_tables_eq_snapAssoc s hnodup]
  have hsplit : snapAssoc (dictRemove s A ++ [(A, { tA with name := A })]) =
      snapAssoc (dictRemove s A) ++ [(normIdent A, tableSummaryOf A { tA with name := A })] := by
    simp [snapAssoc]
  rw [hsplit, tableSummaryOf_name_irrelevant]
  exact alookup_snapAssoc_remove s A tA hA hnodup K

/-- Witness for claim C3 on a concrete schema where `c` references `a`. -/
theorem c3_rename_roundtrip_witness :
    snapshotPyEq (snapshot_from_schema (rename_table (rename_table c3WitnessSchema "a" "b") "b" "a"))
      (snapshot_from_schema c3WitnessSchema) :=
  c3_rename_roundtrip_snapshot c3WitnessSchema "a" "b" (newTable "a")
    (by decide) (by decide) (by decide) (by decide)

/-! ### Column-rename round-trip lemmas (claim C4) -/

theorem strRen_rt (c c2 x : String) (h : strOk c c2 x) :
    (if pyLower (if pyLower x = pyLower c then c2 else x) = pyLower c2 then c
     else (if pyLower x = pyLower c then c2 else x)) = x := by
  obtain ⟨h1, h2⟩ := h
  by_cases hm : pyLower x = pyLower c
  · simp [hm, h1 hm]
  · simp [hm, h2]

theorem strRen_rt_map (c c2 : String) (l : List String) (h : ∀ x ∈ l, strOk c c2 x) :
    (l.map (fun x => if pyLower x = pyLower c then c2 else x)).map
      (fun y => if pyLower y = pyLower c2 then c else y) = l := by
  rw [List.map_map]
  have : ∀ x ∈ l, ((fun y => if pyLower y = pyLower c2 then c else y) ∘
      (fun x => if pyLower x = pyLower c then c2 else x)) x = x := by
    intro x hx
    simpa [Function.comp] using strRen_rt c c2 x (h x hx)
  rw [List.map_congr_left this]
  exact List.map_id' _

theorem foldl_setAdd_eq_append {α : Type} [DecidableEq α] (l acc : List α)
    (hdisj : ∀ x ∈ l, x ∉ acc) (hn : l.Nodup) : l.foldl setAdd acc = acc ++ l := by
  induction l generalizing acc with
  | nil => simp
  | cons x rest ih =>
    simp only [List.foldl_cons]
    have hx : x ∉ acc := hdisj x (List.mem_cons_self _ _)
    rw [show setAdd acc x = acc ++ [x] by simp [setAdd, hx]]
    simp only [List.nodup_cons] at hn
    rw [ih (acc ++ [x]) ?_ hn.2]
    · simp
    · intro y hy
      simp only [List.mem_append, List.mem_singleton]
      push_neg
      exact ⟨fun hc => hdisj y (List.mem_cons_of_mem _ hy) hc,
        fun hc => hn.1 (hc ▸ hy)⟩

theorem setOfList_eq_self {α : Type} [DecidableEq α] (l : List α) (h : l.Nodup) :
    setOfList l = l := by
  unfold setOfList
  simpa using foldl_setAdd_eq_append l [] (by simp) h

theorem strRen_map_nodup (c c2 : String) (l : List String) (h : ∀ x ∈ l, strOk c c2 x)
    (hn : l.Nodup) : (l.map (fun x => if pyLower x = pyLower c then c2 else x)).Nodup := by
  refine List.Nodup.map_on ?_ hn
  intro x hx y hy heq
  obtain ⟨hx1, hx2⟩ := h x hx
  obtain ⟨hy1, hy2⟩ := h y hy
  by_cases hmx : pyLower x = pyLower c <;> by_cases hmy : pyLower y = pyLower c
  · rw [hx1 hmx, hy1 hmy]
  · rw [if_pos hmx, if_neg hmy] at heq
    exact absurd (by rw [← heq]) hy2
  · rw [if_neg hmx, if_pos hmy] at heq
    exact absurd (by rw [heq]) hx2
  · rw [if_neg hmx, if_neg hmy] at heq
    exact heq

theorem pk_roundtrip (c c2 : String) (pk : List String) (h : ∀ x ∈ pk, strOk c c2 x)
    (hn : pk.Nodup) :
    setOfList ((setOfList (pk.map (fun x => if pyLower x = pyLower c then c2 else x))).map
      (fun y => if pyLower y = pyLower c2 then c else y)) = pk := by
  rw [setOfList_eq_self _ (strRen_map_nodup c c2 pk h hn)]
  rw [strRen_rt_map c c2 pk h]
  exact setOfList_eq_self pk hn

theorem cols_roundtrip (c c2 : String) (cols : List Column) (pk1L pkL : List String)
    (hok : ∀ col ∈ cols, strOk c c2 col.name)
    (hflag : ∀ col ∈ cols, col.is_primary_key = pkL.contains (pyLower col.name)) :
    (((cols.map (fun col => if pyLower col.name = pyLower c then { col with name := c2 } else col)).map
        (fun col => { col with is_primary_key := pk1L.contains (pyLower col.name) })).map
      (fun col => if pyLower col.name = pyLower c2 then { col with name := c } else col)).map
      (fun col => { col with is_primary_key := pkL.contains (pyLower col.name) }) = cols := by
  induction cols with
  | nil => rfl
  | cons col rest ih =>
    simp only [List.map_cons]
    congr 1
    · obtain ⟨h1, h2⟩ := hok col (List.mem_cons_self _ _)
      have hf := hflag col (List.mem_cons_self _ _)
      obtain ⟨nm, dt, nl, ip⟩ := col
      simp only at h1 h2 hf
      by_cases hm : pyLower nm = pyLower c
      · have hcn := h1 hm
        subst hcn
        simp [hm, hf]
      · simp [hm, h2, hf]
    · exact ih (fun q hq => hok q (List.mem_cons_of_mem _ hq))
        (fun q hq => hflag q (List.mem_cons_of_mem _ hq))

theorem fks_roundtrip_self (nm c c2 : String) (fks : List ForeignKey)
    (hok : ∀ fk ∈ fks, (∀ x ∈ fk.columns, strOk c c2 x) ∧ (∀ x ∈ fk.ref_columns, strOk c c2 x)) :
    (fks.map (fun fk =>
      let fk1 : ForeignKey := { fk with columns := fk.columns.map (fun col => if pyLower col = pyLower c then c2 else col) }
      if fk1.ref_table = nm then
        { fk1 with ref_columns := fk1.ref_columns.map (fun col => if pyLower col = pyLower c then c2 else col) }
      else fk1)).map (fun fk =>
      let fk1 : ForeignKey := { fk with columns := fk.columns.map (fun col => if pyLower col = pyLower c2 then c else col) }
      if fk1.ref_table = nm then
        { fk1 with ref_columns := fk1.ref_columns.map (fun col => if pyLower col = pyLower c2 then c else col) }
      else fk1) = fks := by
  induction fks with
  | nil => rfl
  | cons fk rest ih =>
    simp only [List.map_cons]
    congr 1
    · obtain ⟨hc, hr⟩ := hok fk (List.mem_cons_self _ _)
      obtain ⟨fc, frt, frc, fn⟩ := fk
      simp only at hc hr
      by_cases hrt : frt = nm
      · simp only [hrt]
        simp [strRen_rt_map c c2 fc hc, strRen_rt_map c c2 frc hr]
      · simp only [if_neg hrt]
        simp [hrt, strRen_rt_map c c2 fc hc]
    · exact ih (fun q hq => hok q (List.mem_cons_of_mem _ hq))

theorem fks_roundtrip_other (nm T c c2 : String) (hnm : nm ≠ T) (fks : List ForeignKey)
    (hok : ∀ fk ∈ fks, (∀ x ∈ fk.columns, strOk c c2 x) ∧ (∀ x ∈ fk.ref_columns, strOk c c2 x)) :
    ((((fks.map (fun fk =>
      let fk1 : ForeignKey := { fk with columns := fk.columns.map (fun col => if pyLower col = pyLower c then c2 else col) }
      if fk1.ref_table = nm then
        { fk1 with ref_columns := fk1.ref_columns.map (fun col => if pyLower col = pyLower c then c2 else col) }
      else fk1)).map (fun fk =>
        if fk.ref_table = T then
          { fk with ref_columns := fk.ref_columns.map (fun col => if pyLower col = pyLower c then c2 else col) }
        else fk)).map (fun fk =>
      let fk1 : ForeignKey := { fk with columns := fk.columns.map (fun col => if pyLower col = pyLower c2 then c else col) }
      if fk1.ref_table = nm then
        { fk1 with ref_columns := fk1.ref_columns.map (fun col => if pyLower col = pyLower c2 then c else col) }
      else fk1)).map (fun fk =>
        if fk.ref_table = T then
          { fk with ref_columns := fk.ref_columns.map (fun col => if pyLower col = pyLower c2 then c else col) }
        else fk)) = fks := by
  induction fks with
  | nil => rfl
  | cons fk rest ih =>
    simp only [List.map_cons]
    congr 1
    · obtain ⟨hc, hr⟩ := hok fk (List.mem_cons_self _ _)
      obtain ⟨fc, frt, frc, fn⟩ := fk
      simp only at hc hr
      by_cases hrt : frt = nm
      · simp [hrt, hnm, strRen_rt_map c c2 fc hc, strRen_rt_map c c2 frc hr]
      · by_cases hrT : frt = T
        · simp [hrT, Ne.symm hnm, strRen_rt_map c c2 fc hc, strRen_rt_map c c2 frc hr]
        · simp [hrt, hrT, strRen_rt_map c c2 fc hc]
    · exact ih (fun q hq => hok q (List.mem_cons_of_mem _ hq))

theorem table_roundtrip (T c c2 : String) (t : Table) (hok : tableOk c c2 t) :
    refColRename T c2 c ((refColRename T c c2 (t.rename_column c c2)).rename_column c2 c) = t := by
  obtain ⟨hcols, hpk, hpknd, hfks, hflag⟩ := hok
  obtain ⟨nm, cols, pk, fks, cts, pkn, idx⟩ := t
  simp only at hcols hpk hpknd hfks hflag
  have hpkrt := pk_roundtrip c c2 pk hpk hpknd
  by_cases hname : nm = T
  · subst hname
    simp only [Table.rename_column, Table.sync_primary_key_flags, refColRename,
      eq_self_iff_true, if_true]
    rw [Table.mk.injEq]
    refine ⟨rfl, ?_, ?_, ?_, rfl, rfl, rfl⟩
    · rw [hpkrt]
      exact cols_roundtrip c c2 cols _ _ hcols hflag
    · exact hpkrt
    · exact fks_roundtrip_self nm c c2 fks hfks
  · simp only [Table.rename_column, Table.sync_primary_key_flags, refColRename,
      eq_self_iff_true, if_true, hname, if_false]
    rw [Table.mk.injEq]
    refine ⟨rfl, ?_, ?_, ?_, rfl, rfl, rfl⟩
    · rw [hpkrt]
      exact cols_roundtrip c c2 cols _ _ hcols hflag
    · exact hpkrt
    · exact fks_roundtrip_other nm T c c2 hname fks hfks

theorem fks_refcol_roundtrip (T c c2 : String) (fks : List ForeignKey)
    (hok : ∀ fk ∈ fks, ∀ x ∈ fk.ref_columns, strOk c c2 x) :
    (fks.map (fun fk =>
      if fk.ref_table = T then
        { fk with ref_columns := fk.ref_columns.map (fun col => if pyLower col = pyLower c then c2 else col) }
      else fk)).map (fun fk =>
      if fk.ref_table = T then
        { fk with ref_columns := fk.ref_columns.map (fun col => if pyLower col = pyLower c2 then c else col) }
      else fk) = fks := by
  induction fks with
  | nil => rfl
  | cons fk rest ih =>
    simp only [List.map_cons]
    congr 1
    · have hr := hok fk (List.mem_cons_self _ _)
      obtain ⟨fc, frt, frc, fn⟩ := fk
      simp only at hr
      by_cases hrt : frt = T
      · simp [hrt, strRen_rt_map c c2 frc hr]
      · simp [hrt]
    · exact ih (fun q hq => hok q (List.mem_cons_of_mem _ hq))

theorem refcol_roundtrip_other (T c c2 : String) (t : Table)
    (hfks : ∀ fk ∈ t.foreign_keys, ∀ x ∈ fk.ref_columns, strOk c c2 x) :
    refColRename T c2 c (refColRename T c c2 t) = t := by
  unfold refColRename
  by_cases hname : t.name = T
  · simp [hname]
  · simp only [if_neg hname]
    rw [fks_refcol_roundtrip T c c2 t.foreign_keys hfks]

theorem dictUpdate_eq_map {α : Type} (m : List (String × α)) (k : String) (f : α → α) :
    dictUpdate m k f = m.map (fun kv => if kv.1 = k then (k, f kv.2) else kv) := by
  induction m with
  | nil => rfl
  | cons kv rest ih =>
    by_cases hk : kv.1 = k
    · simp [dictUpdate, hk, ih]
    · simp [dictUpdate, hk, ih]

theorem rename_column_in_schema_eq (s : Schema) (T c c2 : String)
    (h : (alookup s T).isSome = true) :
    rename_column_in_schema s T c c2 = s.map (fun kv =>
      (kv.1, refColRename T c c2 (if kv.1 = T then kv.2.rename_column c c2 else kv.2))) := by
  unfold rename_column_in_schema
  cases hl : alookup s T with
  | none => rw [hl] at h; cases h
  | some t0 =>
    dsimp only
    rw [dictUpdate_eq_map, List.map_map]
    apply List.map_congr_left
    intro kv _
    by_cases hk : kv.1 = T
    · simp [Function.comp, hk]
    · simp [Function.comp, hk]

theorem alookup_map_keyfun {α β : Type} (g : String → α → β) (m : List (String × α)) (k : String) :
    alookup (m.map (fun kv => (kv.1, g kv.1 kv.2))) k = (alookup m k).map (g k) := by
  induction m with
  | nil => rfl
  | cons kv rest ih =>
    by_cases h : kv.1 = k
    · simp [alookup, h]
    · simp [alookup, h, ih]

/-! ### Claim C4 -/

/-- Claim C4 counterexample: table `t` owns column `c` and has no column
`c2`, but table `a`'s foreign key to `t` lists the referenced column
`c2`; renaming `c` to `c2` and back rewrites that entry to `c`, so the
foreign-key referenced-column lists are not restored. -/
theorem c4_counterexample_rogue_c2_ref_column :
    ((alookup c4DemoSchema "t").getD (newTable "t")).has_column "c" = true ∧
    ((alookup c4DemoSchema "t").getD (newTable "t")).has_column "c2" = false ∧
    ((alookup (rename_column_in_schema (rename_column_in_schema c4DemoSchema "t" "c" "c2") "t" "c2" "c") "a").map
      (fun t => t.foreign_keys.map (fun fk => fk.ref_columns))) = some [["c"]] ∧
    rename_column_in_schema (rename_column_in_schema c4DemoSchema "t" "c" "c2") "t" "c2" "c" ≠
      c4DemoSchema := by
  refine ⟨by decide, by decide, by decide, by decide⟩

/-- Claim C4 (amended): renaming column `c` of table `T` to `c2` and then
back restores the schema exactly — column sets, primary-key sets and all
foreign-key local/referenced column lists included — provided every
occurrence of the column name in the schema that matches `c`
case-insensitively is spelled exactly `c`, no occurrence matches `c2`
case-insensitively, each primary-key set is duplicate free and each
table's column flags agree with its primary-key set (the last two are
invariants of the Python representation). -/
theorem c4_rename_column_roundtrip (s : Schema) (T c c2 : String) (t0 : Table)
    (hT : alookup s T = some t0)
    (_howns : t0.has_column c = true)
    (_hnoc2 : t0.has_column c2 = false)
    (hok : ∀ kv ∈ s, tableOk c c2 kv.2) :
    rename_column_in_schema (rename_column_in_schema s T c c2) T c2 c = s := by
  have h1 : (alookup s T).isSome = true := by rw [hT]; rfl
  rw [rename_column_in_schema_eq s T c c2 h1]
  have h2 : (alookup (s.map (fun kv =>
      (kv.1, refColRename T c c2 (if kv.1 = T then kv.2.rename_column c c2 else kv.2)))) T).isSome = true := by
    rw [alookup_map_keyfun (fun k v => refColRename T c c2 (if k = T then v.rename_column c c2 else v)) s T]
    rw [hT]
    rfl
  rw [rename_column_in_schema_eq _ T c2 c h2]
  rw [List.map_map]
  have hpt : ∀ kv ∈ s, ((fun kv => (kv.1, refColRename T c2 c
        (if kv.1 = T then Table.rename_column kv.2 c2 c else kv.2))) ∘
      (fun kv => (kv.1, refColRename T c c2
        (if kv.1 = T then Table.rename_column kv.2 c c2 else kv.2)))) kv = kv := by
    intro kv hkv
    have hokt := hok kv hkv
    simp only [Function.comp]
    by_cases hk : kv.1 = T
    · simp only [hk, eq_self_iff_true, if_true]
      rw [table_roundtrip T c c2 kv.2 hokt, ← hk]
    · simp only [if_neg hk]
      rw [refcol_roundtrip_other T c c2 kv.2
        (fun fk hfk x hx => (hokt.2.2.2.1 fk hfk).2 x hx)]
  rw [List.map_congr_left hpt]
  exact List.map_id' _

/-- Witness for claim C4 on a concrete schema: renaming `t.c` to `c2`
and back restores the schema exactly. -/
theorem c4_rename_column_roundtrip_witness :
    rename_column_in_schema (rename_column_in_schema c4WitnessSchema "t" "c" "c2") "t" "c2" "c" =
      c4WitnessSchema :=
  c4_rename_column_roundtrip c4WitnessSchema "t" "c" "c2"
    ({ newTable "t" with
      columns := [{ name := "c", data_type := "INT", nullable := true, is_primary_key := false }] })
    (by decide) (by decide) (by decide) (by decide)

/-! ### Self-diff lemmas (claim C8) -/

/-- Filtering a list by non-membership in itself gives the empty list. -/
theorem filter_not_contains_self {α : Type} [DecidableEq α] (l : List α) :
    l.filter (fun c => ! l.contains c) = [] := by
  rw [List.filter_eq_nil_iff]
  intro a ha
  simp [ha]

/-- A fold whose step never changes the accumulator returns it unchanged. -/
theorem foldl_fixed_of_id {α β : Type} (f : β → α → β) (l : List α) (b : β)
    (h : ∀ acc a, f acc a = acc) : l.foldl f b = b := by
  induction l generalizing b with
  | nil => rfl
  | cons x xs ih => rw [List.foldl_cons, h, ih]

theorem columnsMissingLines_self (m : List (String × TableSummary)) (keys : List String) :
    columnsMissingLines m m keys = [] := by
  unfold columnsMissingLines
  apply foldl_fixed_of_id
  intro acc k
  dsimp only
  rw [filter_not_contains_self]
  rfl

theorem columnsExtraLines_self (m : List (String × TableSummary)) (keys : List String) :
    columnsExtraLines m m keys = [] := by
  unfold columnsExtraLines
  apply foldl_fixed_of_id
  intro acc k
  dsimp only
  rw [filter_not_contains_self]
  rfl

theorem fksMissingLines_self (m : List (String × TableSummary)) (keys : List String) :
    fksMissingLines m m keys = [] := by
  unfold fksMissingLines
  apply foldl_fixed_of_id
  intro acc k
  dsimp only
  rw [filter_not_contains_self]
  rfl

theorem fksExtraLines_self (m : List (String × TableSummary)) (keys : List String) :
    fksExtraLines m m keys = [] := by
  unfold fksExtraLines
  apply foldl_fixed_of_id
  intro acc k
  dsimp only
  rw [filter_not_contains_self]
  rfl

theorem idxMissingLines_self (m : List (String × TableSummary)) (keys : List String) :
    idxMissingLines m m keys = [] := by
  unfold idxMissingLines
  apply foldl_fixed_of_id
  intro acc k
  dsimp only
  rw [filter_not_contains_self]
  rfl

theorem idxExtraLines_self (m : List (String × TableSummary)) (keys : List String) :
    idxExtraLines m m keys = [] := by
  unfold idxExtraLines
  apply foldl_fixed_of_id
  intro acc k
  dsimp only
  rw [filter_not_contains_self]
  rfl

set_option maxRecDepth 8192 in
/-- C8: for every snapshot `S`, `generate_diff_report S S` is exactly the
eight fixed section headers in their specified order, each followed by the
single line `  (none)`. -/
theorem c8_self_diff_all_none (S : SchemaSnapshot) :
    generate_diff_report S S =
      "Tables only in migrations\n  (none)\n\nTables only in draw.io\n  (none)\n\nColumns missing in draw.io\n  (none)\n\nColumns only in draw.io\n  (none)\n\nForeign keys missing in draw.io\n  (none)\n\nForeign keys only in draw.io\n  (none)\n\nIndexes missing in draw.io\n  (none)\n\nIndexes only in draw.io\n  (none)\n" := by
  unfold generate_diff_report
  dsimp only
  rw [filter_not_contains_self, columnsMissingLines_self, columnsExtraLines_self,
    fksMissingLines_self, fksExtraLines_self, idxMissingLines_self, idxExtraLines_self]
  rfl

/-! ### Order properties of the report comparators (claim C9) -/

theorem charLt_asymm (a b : Char) (h : charLt a b = true) : charLt b a = false := by
  unfold charLt at h ⊢
  simp only [decide_eq_true_eq] at h
  simp only [decide_eq_false_iff_not]
  omega

theorem charLt_trans (a b c : Char) (h1 : charLt a b = true) (h2 : charLt b c = true) :
    charLt a c = true := by
  unfold charLt at h1 h2 ⊢
  simp only [decide_eq_true_eq] at h1 h2 ⊢
  omega

theorem charLt_conn (a b : Char) (h1 : charLt a b = false) (h2 : charLt b a = false) : a = b := by
  unfold charLt at h1 h2
  simp only [decide_eq_false_iff_not] at h1 h2
  have h : a.toNat = b.toNat := by omega
  have hv : a.val = b.val := UInt32.toNat.inj h
  exact Char.eq_of_val_eq hv

theorem lexLt_asymm {α : Type} (lt : α → α → Bool)
    (hasym : ∀ a b, lt a b = true → lt b a = false) :
    ∀ l1 l2, lexLt lt l1 l2 = true → lexLt lt l2 l1 = false := by
  intro l1
  induction l1 with
  | nil =>
    intro l2 h
    cases l2 with
    | nil => simp [lexLt] at h
    | cons b bs => rfl
  | cons a as ih =>
    intro l2 h
    cases l2 with
    | nil => simp [lexLt] at h
    | cons b bs =>
      unfold lexLt at h ⊢
      cases hab : lt a b with
      | true =>
        rw [hasym a b hab]
        simp [hab]
      | false =>
        cases hba : lt b a with
        | true => simp [hab, hba] at h
        | false =>
          simp only [hab, hba, if_false] at h ⊢
          exact ih bs h

theorem lexLt_conn {α : Type} (lt : α → α → Bool)
    (hconn : ∀ a b, lt a b = false → lt b a = false → a = b) :
    ∀ l1 l2, lexLt lt l1 l2 = false → lexLt lt l2 l1 = false → l1 = l2 := by
  intro l1
  induction l1 with
  | nil =>
    intro l2 h1 _
    cases l2 with
    | nil => rfl
    | cons b bs => simp [lexLt] at h1
  | cons a as ih =>
    intro l2 h1 h2
    cases l2 with
    | nil => simp [lexLt] at h2
    | cons b bs =>
      unfold lexLt at h1 h2
      cases hab : lt a b with
      | true => simp [hab] at h1
      | false =>
        cases hba : lt b a with
        | true => simp [hba] at h2
        | false =>
          simp only [hab, hba, if_false] at h1 h2
          have he : a = b := hconn a b hab hba
          rw [he, ih bs h1 h2]

theorem lexLt_trans {α : Type} (lt : α → α → Bool)
    (htrans : ∀ a b c, lt a b = true → lt b c = true → lt a c = true)
    (hconn : ∀ a b, lt a b = false → lt b a = false → a = b) :
    ∀ l1 l2 l3, lexLt lt l1 l2 = true → lexLt lt l2 l3 = true → lexLt lt l1 l3 = true := by
  intro l1
  induction l1 with
  | nil =>
    intro l2 l3 h1 h2
    cases l3 with
    | nil =>
      cases l2 with
      | nil => simp [lexLt] at h1
      | cons b bs => simp [lexLt] at h2
    | cons c cs => rfl
  | cons a as ih =>
    intro l2 l3 h1 h2
    cases l2 with
    | nil => simp [lexLt] at h1
    | cons b bs =>
      cases l3 with
      | nil => simp [lexLt] at h2
      | cons c cs =>
        unfold lexLt at h1 h2 ⊢
        cases hab : lt a b with
        | true =>
          cases hbc : lt b c with
          | true => simp [htrans a b c hab hbc]
          | false =>
            cases hcb : lt c b with
            | true => simp [hab, hbc, hcb] at h2
            | false =>
              have he : b = c := hconn b c hbc hcb
              subst he
              simp [hab]
        | false =>
          cases hba : lt b a with
          | true => simp [hab, hba] at h1
          | false =>
            have he : a = b := hconn a b hab hba
            subst he
            simp only [hab, if_false] at h1
            cases hac : lt a c with
            | true => simp [hac]
            | false =>
              cases hca : lt c a with
              | true => simp [hac, hca] at h2
              | false =>
                simp only [hac, hca, if_false] at h2 ⊢
                exact ih bs cs h1 h2

theorem pyStrLt_asymm (a b : String) (h : pyStrLt a b = true) : pyStrLt b a = false :=
  lexLt_asymm charLt charLt_asymm a.toList b.toList h

theorem pyStrLt_trans (a b c : String) (h1 : pyStrLt a b = true) (h2 : pyStrLt b c = true) :
    pyStrLt a c = true :=
  lexLt_trans charLt charLt_trans charLt_conn a.toList b.toList c.toList h1 h2

theorem pyStrLt_conn (a b : String) (h1 : pyStrLt a b = false) (h2 : pyStrLt b a = false) :
    a = b := by
  have h := lexLt_conn charLt charLt_conn a.toList b.toList h1 h2
  cases a; cases b
  exact congrArg String.mk h

theorem notLt_total {α : Type} (lt : α → α → Bool)
    (hasym : ∀ a b, lt a b = true → lt b a = false) (a b : α) :
    (!lt b a) = true ∨ (!lt a b) = true := by
  cases h : lt b a with
  | true => right; rw [hasym b a h]; rfl
  | false => left; rfl

theorem notLt_trans {α : Type} (lt : α → α → Bool)
    (htrans : ∀ a b c, lt a b = true → lt b c = true → lt a c = true)
    (hconn : ∀ a b, lt a b = false → lt b a = false → a = b) (a b c : α)
    (h1 : (!lt b a) = true) (h2 : (!lt c b) = true) : (!lt c a) = true := by
  rw [Bool.not_eq_true'] at h1 h2
  rw [Bool.not_eq_true']
  cases hca : lt c a with
  | true =>
    cases hbc : lt b c with
    | true => rw [htrans b c a hbc hca] at h1; exact h1
    | false =>
      have he : b = c := hconn b c hbc h2
      rw [← he] at hca
      rw [hca] at h1
      exact h1
  | false => rfl

theorem notLt_antisymm {α : Type} (lt : α → α → Bool)
    (hconn : ∀ a b, lt a b = false → lt b a = false → a = b) (a b : α)
    (h1 : (!lt b a) = true) (h2 : (!lt a b) = true) : a = b := by
  rw [Bool.not_eq_true'] at h1 h2
  exact hconn a b h2 h1

theorem pyStrLe_total (a b : String) : pyStrLe a b = true ∨ pyStrLe b a = true :=
  notLt_total pyStrLt pyStrLt_asymm a b

theorem pyStrLe_trans (a b c : String) (h1 : pyStrLe a b = true) (h2 : pyStrLe b c = true) :
    pyStrLe a c = true := by
  unfold pyStrLe at h1 h2 ⊢
  exact notLt_trans pyStrLt pyStrLt_trans pyStrLt_conn a b c h1 h2

theorem pyStrLe_antisymm (a b : String) (h1 : pyStrLe a b = true) (h2 : pyStrLe b a = true) :
    a = b := by
  unfold pyStrLe at h1 h2
  exact notLt_antisymm pyStrLt pyStrLt_conn a b h1 h2

theorem listStrLt_asymm (a b : List String) (h : listStrLt a b = true) : listStrLt b a = false :=
  lexLt_asymm pyStrLt pyStrLt_asymm a b h

theorem listStrLt_trans (a b c : List String) (h1 : listStrLt a b = true)
    (h2 : listStrLt b c = true) : listStrLt a c = true :=
  lexLt_trans pyStrLt pyStrLt_trans pyStrLt_conn a b c h1 h2

theorem listStrLt_conn (a b : List String) (h1 : listStrLt a b = false)
    (h2 : listStrLt b a = false) : a = b :=
  lexLt_conn pyStrLt pyStrLt_conn a b h1 h2

theorem listStrLe_total (a b : List String) : listStrLe a b = true ∨ listStrLe b a = true :=
  notLt_total listStrLt listStrLt_asymm a b

theorem listStrLe_trans (a b c : List String) (h1 : listStrLe a b = true)
    (h2 : listStrLe b c = true) : listStrLe a c = true := by
  unfold listStrLe at h1 h2 ⊢
  exact notLt_trans listStrLt listStrLt_trans listStrLt_conn a b c h1 h2

theorem listStrLe_antisymm (a b : List String) (h1 : listStrLe a b = true)
    (h2 : listStrLe b a = true) : a = b := by
  unfold listStrLe at h1 h2
  exact notLt_antisymm listStrLt listStrLt_conn a b h1 h2

theorem boolLt_asymm (a b : Bool) (h : boolLt a b = true) : boolLt b a = false := by
  revert h; revert a b; decide

theorem boolLt_trans (a b c : Bool) (h1 : boolLt a b = true) (h2 : boolLt b c = true) :
    boolLt a c = true := by
  revert h1 h2; revert a b c; decide

theorem boolLt_conn (a b : Bool) (h1 : boolLt a b = false) (h2 : boolLt b a = false) : a = b := by
  revert h1 h2; revert a b; decide

theorem tieLe_total {α β : Type} (lt : α → α → Bool) (le2 : β → β → Bool)
    (h2tot : ∀ b1 b2, le2 b1 b2 = true ∨ le2 b2 b1 = true) (a1 a2 : α) (b1 b2 : β) :
    tieLe lt le2 a1 a2 b1 b2 = true ∨ tieLe lt le2 a2 a1 b2 b1 = true := by
  unfold tieLe
  cases h1 : lt a1 a2 with
  | true => left; rfl
  | false =>
    cases h2 : lt a2 a1 with
    | true => right; rfl
    | false =>
      simpa using h2tot b1 b2

theorem tieLe_trans {α β : Type} (lt : α → α → Bool) (le2 : β → β → Bool)
    (htrans : ∀ a b c, lt a b = true → lt b c = true → lt a c = true)
    (hconn : ∀ a b, lt a b = false → lt b a = false → a = b)
    (h2trans : ∀ b1 b2 b3, le2 b1 b2 = true → le2 b2 b3 = true → le2 b1 b3 = true)
    (a1 a2 a3 : α) (b1 b2 b3 : β)
    (h1 : tieLe lt le2 a1 a2 b1 b2 = true) (h2 : tieLe lt le2 a2 a3 b2 b3 = true) :
    tieLe lt le2 a1 a3 b1 b3 = true := by
  unfold tieLe at h1 h2 ⊢
  cases h12 : lt a1 a2 with
  | true =>
    cases h23 : lt a2 a3 with
    | true => simp [htrans a1 a2 a3 h12 h23]
    | false =>
      cases h32 : lt a3 a2 with
      | true => simp [h23, h32] at h2
      | false =>
        have he : a2 = a3 := hconn a2 a3 h23 h32
        rw [← he]
        simp [h12]
  | false =>
    cases h21 : lt a2 a1 with
    | true => simp [h12, h21] at h1
    | false =>
      have he : a1 = a2 := hconn a1 a2 h12 h21
      subst he
      simp only [h12, if_false] at h1
      cases h23 : lt a1 a3 with
      | true => simp [h23]
      | false =>
        cases h31 : lt a3 a1 with
        | true => simp [h23, h31] at h2
        | false =>
          simp only [h23, h31, if_false] at h2 ⊢
          exact h2trans b1 b2 b3 h1 h2

theorem tieLe_key_eq {α β : Type} (lt : α → α → Bool) (le2 : β → β → Bool)
    (hasym : ∀ a b, lt a b = true → lt b a = false)
    (hconn : ∀ a b, lt a b = false → lt b a = false → a = b)
    (a1 a2 : α) (b1 b2 : β)
    (h1 : tieLe lt le2 a1 a2 b1 b2 = true) (h2 : tieLe lt le2 a2 a1 b2 b1 = true) :
    a1 = a2 ∧ le2 b1 b2 = true ∧ le2 b2 b1 = true := by
  unfold tieLe at h1 h2
  cases h12 : lt a1 a2 with
  | true =>
    rw [hasym a1 a2 h12] at h2
    simp [h12] at h2
  | false =>
    cases h21 : lt a2 a1 with
    | true => simp [h12, h21] at h1
    | false =>
      simp only [h12, h21, if_false] at h1 h2
      exact ⟨hconn a1 a2 h12 h21, h1, h2⟩

theorem fkKeyLe_eq_tieLe (x y : ForeignKeySummary) :
    fkKeyLe x y =
      tieLe pyStrLt listStrLe x.ref_table y.ref_table x.local_columns y.local_columns := rfl

theorem fkKeyLe_total (x y : ForeignKeySummary) :
    fkKeyLe x y = true ∨ fkKeyLe y x = true := by
  rw [fkKeyLe_eq_tieLe, fkKeyLe_eq_tieLe]
  exact tieLe_total pyStrLt listStrLe listStrLe_total x.ref_table y.ref_table
    x.local_columns y.local_columns

theorem fkKeyLe_trans (x y z : ForeignKeySummary) (h1 : fkKeyLe x y = true)
    (h2 : fkKeyLe y z = true) : fkKeyLe x z = true := by
  rw [fkKeyLe_eq_tieLe] at h1 h2 ⊢
  exact tieLe_trans pyStrLt listStrLe pyStrLt_trans pyStrLt_conn listStrLe_trans
    x.ref_table y.ref_table z.ref_table x.local_columns y.local_columns z.local_columns h1 h2

theorem fkKeyLe_key_eq (x y : ForeignKeySummary) (h1 : fkKeyLe x y = true)
    (h2 : fkKeyLe y x = true) :
    x.ref_table = y.ref_table ∧ x.local_columns = y.local_columns := by
  rw [fkKeyLe_eq_tieLe] at h1 h2
  have h := tieLe_key_eq pyStrLt listStrLe pyStrLt_asymm pyStrLt_conn
    x.ref_table y.ref_table x.local_columns y.local_columns h1 h2
  exact ⟨h.1, listStrLe_antisymm _ _ h.2.1 h.2.2⟩

theorem idxTieInner_total (p q : Bool × String) :
    idxTieInner p q = true ∨ idxTieInner q p = true := by
  unfold idxTieInner
  exact tieLe_total boolLt pyStrLe pyStrLe_total p.1 q.1 p.2 q.2

theorem idxTieInner_trans (p q r : Bool × String) (h1 : idxTieInner p q = true)
    (h2 : idxTieInner q r = true) : idxTieInner p r = true := by
  unfold idxTieInner at h1 h2 ⊢
  exact tieLe_trans boolLt pyStrLe boolLt_trans boolLt_conn pyStrLe_trans
    p.1 q.1 r.1 p.2 q.2 r.2 h1 h2

theorem idxTieInner_antisymm (p q : Bool × String) (h1 : idxTieInner p q = true)
    (h2 : idxTieInner q p = true) : p = q := by
  unfold idxTieInner at h1 h2
  have h := tieLe_key_eq boolLt pyStrLe boolLt_asymm boolLt_conn p.1 q.1 p.2 q.2 h1 h2
  have h2' : p.2 = q.2 := pyStrLe_antisymm _ _ h.2.1 h.2.2
  cases p; cases q
  simp only at h h2'
  rw [h.1, h2']

theorem idxKeyLe_eq_tieLe (x y : IndexSummary) :
    idxKeyLe x y =
      tieLe listStrLt idxTieInner x.columns y.columns
        (x.unique, x.whereClause) (y.unique, y.whereClause) := rfl

theorem idxKeyLe_total (x y : IndexSummary) :
    idxKeyLe x y = true ∨ idxKeyLe y x = true := by
  rw [idxKeyLe_eq_tieLe, idxKeyLe_eq_tieLe]
  exact tieLe_total listStrLt idxTieInner idxTieInner_total x.columns y.columns
    (x.unique, x.whereClause) (y.unique, y.whereClause)

theorem idxKeyLe_trans (x y z : IndexSummary) (h1 : idxKeyLe x y = true)
    (h2 : idxKeyLe y z = true) : idxKeyLe x z = true := by
  rw [idxKeyLe_eq_tieLe] at h1 h2 ⊢
  exact tieLe_trans listStrLt idxTieInner listStrLt_trans listStrLt_conn idxTieInner_trans
    x.columns y.columns z.columns (x.unique, x.whereClause) (y.unique, y.whereClause)
    (z.unique, z.whereClause) h1 h2

theorem idxKeyLe_antisymm (x y : IndexSummary) (h1 : idxKeyLe x y = true)
    (h2 : idxKeyLe y x = true) : x = y := by
  rw [idxKeyLe_eq_tieLe] at h1 h2
  have h := tieLe_key_eq listStrLt idxTieInner listStrLt_asymm listStrLt_conn
    x.columns y.columns (x.unique, x.whereClause) (y.unique, y.whereClause) h1 h2
  have hp : (x.unique, x.whereClause) = (y.unique, y.whereClause) :=
    idxTieInner_antisymm _ _ h.2.1 h.2.2
  cases x; cases y
  simp only [Prod.mk.injEq] at h hp
  simp only [hp.1, hp.2, h.1]

/-- Two sorted lists that are permutations of each other, over a comparator
antisymmetric on their members, are equal. -/
theorem sorted_perm_eq {α : Type} (le : α → α → Bool) :
    ∀ l1 l2 : List α,
      (∀ a ∈ l1, ∀ b ∈ l1, le a b = true → le b a = true → a = b) →
      l1.Perm l2 →
      l1.Pairwise (fun a b => le a b = true) →
      l2.Pairwise (fun a b => le a b = true) →
      l1 = l2 := by
  intro l1
  induction l1 with
  | nil =>
    intro l2 _ hperm _ _
    exact (hperm.symm.eq_nil).symm
  | cons a as ih =>
    intro l2 hanti hperm h1 h2
    cases l2 with
    | nil => simp at hperm
    | cons b bs =>
      have hab : a = b := by
        by_cases heq : a = b
        · exact heq
        · have ha2 : a ∈ b :: bs := hperm.mem_iff.mp (List.mem_cons_self a as)
          have ha2' : a ∈ bs := by
            cases List.mem_cons.mp ha2 with
            | inl h => exact absurd h heq
            | inr h => exact h
          have hba : le b a = true := (List.pairwise_cons.mp h2).1 a ha2'
          have hb1 : b ∈ a :: as := hperm.mem_iff.mpr (List.mem_cons_self b bs)
          have hb1' : b ∈ as := by
            cases List.mem_cons.mp hb1 with
            | inl h => exact absurd h.symm heq
            | inr h => exact h
          have hab' : le a b = true := (List.pairwise_cons.mp h1).1 b hb1'
          exact hanti a (List.mem_cons_self a as) b (List.mem_cons_of_mem a hb1') hab' hba
      subst hab
      have hperm' : as.Perm bs := hperm.cons_inv
      have h1' := (List.pairwise_cons.mp h1).2
      have h2' := (List.pairwise_cons.mp h2).2
      have hanti' : ∀ x ∈ as, ∀ y ∈ as, le x y = true → le y x = true → x = y :=
        fun x hx y hy => hanti x (List.mem_cons_of_mem a hx) y (List.mem_cons_of_mem a hy)
      rw [ih bs hanti' hperm' h1' h2']

/-- Sorting with a total transitive comparator, antisymmetric on the input
members, maps permutations to the same list. -/
theorem pySortBy_perm_eq {α : Type} (le : α → α → Bool) (l1 l2 : List α)
    (htot : ∀ a b, le a b = true ∨ le b a = true)
    (htrans : ∀ a b c, le a b = true → le b c = true → le a c = true)
    (hanti : ∀ a ∈ l1, ∀ b ∈ l1, le a b = true → le b a = true → a = b)
    (hperm : l1.Perm l2) :
    pySortBy le l1 = pySortBy le l2 := by
  haveI htotI : IsTotal α (fun a b => le a b = true) := ⟨htot⟩
  haveI htransI : IsTrans α (fun a b => le a b = true) := ⟨fun a b c => htrans a b c⟩
  have hs1 : (pySortBy le l1).Pairwise (fun a b => le a b = true) :=
    List.sorted_insertionSort _ l1
  have hs2 : (pySortBy le l2).Pairwise (fun a b => le a b = true) :=
    List.sorted_insertionSort _ l2
  have hp1 : (pySortBy le l1).Perm l1 := List.perm_insertionSort _ l1
  have hp2 : (pySortBy le l2).Perm l2 := List.perm_insertionSort _ l2
  have hanti' : ∀ a ∈ pySortBy le l1, ∀ b ∈ pySortBy le l1,
      le a b = true → le b a = true → a = b :=
    fun a ha b hb => hanti a (hp1.mem_iff.mp ha) b (hp1.mem_iff.mp hb)
  exact sorted_perm_eq le _ _ hanti' (hp1.trans (hperm.trans hp2.symm)) hs1 hs2

/-- Sorting strings maps permutations to the same list. -/
theorem sortStrings_perm_eq (l1 l2 : List String) (hperm : l1.Perm l2) :
    sortStrings l1 = sortStrings l2 := by
  unfold sortStrings
  exact pySortBy_perm_eq pyStrLe l1 l2 pyStrLe_total pyStrLe_trans
    (fun a _ b _ => pyStrLe_antisymm a b) hperm

/-- Sorting index summaries maps permutations to the same list. -/
theorem sortIdx_perm_eq (l1 l2 : List IndexSummary) (hperm : l1.Perm l2) :
    pySortBy idxKeyLe l1 = pySortBy idxKeyLe l2 :=
  pySortBy_perm_eq idxKeyLe l1 l2 idxKeyLe_total idxKeyLe_trans
    (fun a _ b _ => idxKeyLe_antisymm a b) hperm

/-- Sorting foreign-key summaries maps permutations to the same list,
provided no two distinct members share the sort key. -/
theorem sortFk_perm_eq (l1 l2 : List ForeignKeySummary)
    (hsep : ∀ a ∈ l1, ∀ b ∈ l1,
      a.ref_table = b.ref_table → a.local_columns = b.local_columns → a = b)
    (hperm : l1.Perm l2) :
    pySortBy fkKeyLe l1 = pySortBy fkKeyLe l2 :=
  pySortBy_perm_eq fkKeyLe l1 l2 fkKeyLe_total fkKeyLe_trans
    (fun a ha b hb h1 h2 =>
      hsep a ha b hb (fkKeyLe_key_eq a b h1 h2).1 (fkKeyLe_key_eq a b h1 h2).2)
    hperm

/-! ### Report determinism helpers (claim C9) -/

theorem contains_iff_mem {α : Type} [BEq α] [LawfulBEq α] (l : List α) (a : α) :
    l.contains a = true ↔ a ∈ l := by simp

theorem alookup_isSome_iff {α : Type} (l : List (String × α)) (k : String) :
    (alookup l k).isSome = true ↔ k ∈ l.map Prod.fst := by
  induction l with
  | nil => simp [alookup]
  | cons kv rest ih =>
    unfold alookup
    by_cases h : kv.1 = k
    · simp [h]
    · simp only [h, if_false, List.map_cons, List.mem_cons]
      rw [ih]
      constructor
      · intro hm; right; exact hm
      · intro hm
        cases hm with
        | inl he => exact absurd he.symm h
        | inr hm => exact hm

theorem mem_pySortBy {α : Type} (le : α → α → Bool) (l : List α) (a : α) :
    a ∈ pySortBy le l ↔ a ∈ l :=
  (List.perm_insertionSort _ l).mem_iff

theorem foldl_congr_mem {α β : Type} (f g : β → α → β) (l : List α) (b : β)
    (h : ∀ a ∈ l, ∀ acc, f acc a = g acc a) : l.foldl f b = l.foldl g b := by
  induction l generalizing b with
  | nil => rfl
  | cons x xs ih =>
    rw [List.foldl_cons, List.foldl_cons, h x (List.mem_cons_self x xs)]
    exact ih _ (fun a ha acc => h a (List.mem_cons_of_mem x ha) acc)

theorem contains_congr {α : Type} [BEq α] [LawfulBEq α] (l1 l2 : List α)
    (h : ∀ x, x ∈ l1 ↔ x ∈ l2) (a : α) : l1.contains a = l2.contains a := by
  by_cases hm : a ∈ l1
  · rw [(contains_iff_mem l1 a).mpr hm, (contains_iff_mem l2 a).mpr ((h a).mp hm)]
  · have hm2 : a ∉ l2 := fun hh => hm ((h a).mpr hh)
    have e1 : l1.contains a = false := by
      cases hc : l1.contains a with
      | false => rfl
      | true => exact absurd ((contains_iff_mem l1 a).mp hc) hm
    have e2 : l2.contains a = false := by
      cases hc : l2.contains a with
      | false => rfl
      | true => exact absurd ((contains_iff_mem l2 a).mp hc) hm2
    rw [e1, e2]

theorem snapshot_keys_perm (A B : SchemaSnapshot) (h : snapshotPyEq A B)
    (hwA : snapshotWF A) (hwB : snapshotWF B) :
    (A.tables.map Prod.fst).Perm (B.tables.map Prod.fst) := by
  apply (List.perm_ext_iff_of_nodup hwA.1 hwB.1).mpr
  intro k
  rw [← alookup_isSome_iff, ← alookup_isSome_iff]
  exact h.1 k

theorem snapshot_value_transfer (A B : SchemaSnapshot) (h : snapshotPyEq A B)
    (hwA : snapshotWF A) (hwB : snapshotWF B) :
    ∀ k ∈ A.tables.map Prod.fst,
      tableSummaryPyEq (dictGetTS A.tables k) (dictGetTS B.tables k) ∧
      tableSummaryWF (dictGetTS A.tables k) ∧ tableSummaryWF (dictGetTS B.tables k) := by
  intro k hk
  have h1 : (alookup A.tables k).isSome = true := (alookup_isSome_iff _ _).mpr hk
  have h2 : (alookup B.tables k).isSome = true := (h.1 k).mp h1
  obtain ⟨ta, hta⟩ := Option.isSome_iff_exists.mp h1
  obtain ⟨tb, htb⟩ := Option.isSome_iff_exists.mp h2
  have hpe := h.2 k ta tb hta htb
  have hma : (k, ta) ∈ A.tables := mem_of_alookup A.tables k ta hta
  have hmb : (k, tb) ∈ B.tables := mem_of_alookup B.tables k tb htb
  have hwa := hwA.2 (k, ta) hma
  have hwb := hwB.2 (k, tb) hmb
  unfold dictGetTS
  rw [hta, htb]
  simp only [Option.getD_some]
  exact ⟨hpe, hwa, hwb⟩

theorem snapshot_fk_sep_at (A : SchemaSnapshot) (hsep : fkKeysSeparated A) :
    ∀ k ∈ A.tables.map Prod.fst,
      ∀ a ∈ (dictGetTS A.tables k).foreign_keys, ∀ b ∈ (dictGetTS A.tables k).foreign_keys,
        a.ref_table = b.ref_table → a.local_columns = b.local_columns → a = b := by
  intro k hk a ha b hb h1 h2
  obtain ⟨ta, hta⟩ := Option.isSome_iff_exists.mp ((alookup_isSome_iff _ _).mpr hk)
  have hma : (k, ta) ∈ A.tables := mem_of_alookup A.tables k ta hta
  unfold dictGetTS at ha hb
  rw [hta] at ha hb
  simp only [Option.getD_some] at ha hb
  exact hsep (k, ta) hma a ha b hb h1 h2

theorem colLoopBody_congr (n1 n2 : String) (m1 m2 : List String) (acc : List String)
    (hs : m1 = m2) (hname : n1 = n2) :
    (if m1 = [] then acc else acc ++ [n1 ++ ": " ++ joinComma m1]) =
    (if m2 = [] then acc else acc ++ [n2 ++ ": " ++ joinComma m2]) := by
  rw [hs, hname]

theorem fkLoopBody_congr (n1 n2 : String) (m1 m2 : List ForeignKeySummary) (acc : List String)
    (hperm : m1.Perm m2) (hs : pySortBy fkKeyLe m1 = pySortBy fkKeyLe m2) (hname : n1 = n2) :
    (if m1 = [] then acc else acc ++ (pySortBy fkKeyLe m1).map (fun fk => format_fk n1 fk)) =
    (if m2 = [] then acc else acc ++ (pySortBy fkKeyLe m2).map (fun fk => format_fk n2 fk)) := by
  subst hname
  by_cases h0 : m1 = []
  · rw [if_pos h0, if_pos (by rw [h0] at hperm; exact hperm.symm.eq_nil)]
  · rw [if_neg h0, if_neg (fun hh => h0 (by rw [hh] at hperm; exact hperm.eq_nil)), hs]

theorem idxLoopBody_congr (n1 n2 : String) (m1 m2 : List IndexSummary) (acc : List String)
    (hperm : m1.Perm m2) (hs : pySortBy idxKeyLe m1 = pySortBy idxKeyLe m2) (hname : n1 = n2) :
    (if m1 = [] then acc else acc ++ (pySortBy idxKeyLe m1).map (fun idx => format_index n1 idx)) =
    (if m2 = [] then acc else acc ++ (pySortBy idxKeyLe m2).map (fun idx => format_index n2 idx)) := by
  subst hname
  by_cases h0 : m1 = []
  · rw [if_pos h0, if_pos (by rw [h0] at hperm; exact hperm.symm.eq_nil)]
  · rw [if_neg h0, if_neg (fun hh => h0 (by rw [hh] at hperm; exact hperm.eq_nil)), hs]

/-- C9 (amended): the diff report is invariant under the map/set iteration
order of its inputs — for snapshots equal as Python values (same keys,
set-equal table summaries), well formed (duplicate-free keys and set
fields), and such that no table holds two distinct foreign-key summaries
sharing the sort key `(ref_table, local_columns)`, the produced reports
are byte-identical. -/
theorem c9_report_deterministic (S1 S2 D1 D2 : SchemaSnapshot)
    (hS : snapshotPyEq S1 S2) (hD : snapshotPyEq D1 D2)
    (hwS1 : snapshotWF S1) (hwS2 : snapshotWF S2)
    (hwD1 : snapshotWF D1) (hwD2 : snapshotWF D2)
    (hsepS : fkKeysSeparated S1) (hsepD : fkKeysSeparated D1) :
    generate_diff_report S1 D1 = generate_diff_report S2 D2 := by
  have hkS := snapshot_keys_perm S1 S2 hS hwS1 hwS2
  have hkD := snapshot_keys_perm D1 D2 hD hwD1 hwD2
  have htS := snapshot_value_transfer S1 S2 hS hwS1 hwS2
  have htD := snapshot_value_transfer D1 D2 hD hwD1 hwD2
  have hcontD : ∀ a : String,
      (D2.tables.map Prod.fst).contains a = (D1.tables.map Prod.fst).contains a :=
    contains_congr _ _ (fun a => hkD.mem_iff.symm)
  have hcontS : ∀ a : String,
      (S2.tables.map Prod.fst).contains a = (S1.tables.map Prod.fst).contains a :=
    contains_congr _ _ (fun a => hkS.mem_iff.symm)
  have hmemInter : ∀ k, k ∈ sortStrings ((S1.tables.map Prod.fst).filter
      (fun j => (D1.tables.map Prod.fst).contains j)) →
      k ∈ S1.tables.map Prod.fst ∧ k ∈ D1.tables.map Prod.fst := by
    intro k hk
    unfold sortStrings at hk
    rw [mem_pySortBy] at hk
    obtain ⟨h1, h2⟩ := List.mem_filter.mp hk
    exact ⟨h1, (contains_iff_mem _ _).mp h2⟩
  have hkeyFacts : ∀ k, k ∈ sortStrings ((S1.tables.map Prod.fst).filter
      (fun j => (D1.tables.map Prod.fst).contains j)) →
      (tableSummaryPyEq (dictGetTS S1.tables k) (dictGetTS S2.tables k) ∧
        tableSummaryWF (dictGetTS S1.tables k) ∧ tableSummaryWF (dictGetTS S2.tables k)) ∧
      (tableSummaryPyEq (dictGetTS D1.tables k) (dictGetTS D2.tables k) ∧
        tableSummaryWF (dictGetTS D1.tables k) ∧ tableSummaryWF (dictGetTS D2.tables k)) := by
    intro k hk
    obtain ⟨h1, h2⟩ := hmemInter k hk
    exact ⟨htS k h1, htD k h2⟩
  have hsec1 : (sortStrings ((S1.tables.map Prod.fst).filter
        (fun k => ! (D1.tables.map Prod.fst).contains k))).map
          (fun k => (dictGetTS S1.tables k).name)
      = (sortStrings ((S2.tables.map Prod.fst).filter
        (fun k => ! (D2.tables.map Prod.fst).contains k))).map
          (fun k => (dictGetTS S2.tables k).name) := by
    have hfix : (S2.tables.map Prod.fst).filter (fun k => ! (D2.tables.map Prod.fst).contains k)
        = (S2.tables.map Prod.fst).filter (fun k => ! (D1.tables.map Prod.fst).contains k) :=
      List.filter_congr (fun a _ => by rw [hcontD a])
    have hss : sortStrings ((S1.tables.map Prod.fst).filter
          (fun k => ! (D1.tables.map Prod.fst).contains k))
        = sortStrings ((S2.tables.map Prod.fst).filter
          (fun k => ! (D2.tables.map Prod.fst).contains k)) := by
      rw [hfix]
      exact sortStrings_perm_eq _ _ (hkS.filter _)
    rw [← hss]
    apply List.map_congr_left
    intro k hk
    have hk' : k ∈ S1.tables.map Prod.fst := by
      unfold sortStrings at hk
      rw [mem_pySortBy] at hk
      exact (List.mem_filter.mp hk).1
    exact (htS k hk').1.1
  have hsec2 : (sortStrings ((D1.tables.map Prod.fst).filter
        (fun k => ! (S1.tables.map Prod.fst).contains k))).map
          (fun k => (dictGetTS D1.tables k).name)
      = (sortStrings ((D2.tables.map Prod.fst).filter
        (fun k => ! (S2.tables.map Prod.fst).contains k))).map
          (fun k => (dictGetTS D2.tables k).name) := by
    have hfix : (D2.tables.map Prod.fst).filter (fun k => ! (S2.tables.map Prod.fst).contains k)
        = (D2.tables.map Prod.fst).filter (fun k => ! (S1.tables.map Prod.fst).contains k) :=
      List.filter_congr (fun a _ => by rw [hcontS a])
    have hss : sortStrings ((D1.tables.map Prod.fst).filter
          (fun k => ! (S1.tables.map Prod.fst).contains k))
        = sortStrings ((D2.tables.map Prod.fst).filter
          (fun k => ! (S2.tables.map Prod.fst).contains k)) := by
      rw [hfix]
      exact sortStrings_perm_eq _ _ (hkD.filter _)
    rw [← hss]
    apply List.map_congr_left
    intro k hk
    have hk' : k ∈ D1.tables.map Prod.fst := by
      unfold sortStrings at hk
      rw [mem_pySortBy] at hk
      exact (List.mem_filter.mp hk).1
    exact (htD k hk').1.1
  have hinter : sortStrings ((S1.tables.map Prod.fst).filter
        (fun j => (D1.tables.map Prod.fst).contains j))
      = sortStrings ((S2.tables.map Prod.fst).filter
        (fun j => (D2.tables.map Prod.fst).contains j)) := by
    have hfix : (S2.tables.map Prod.fst).filter (fun j => (D2.tables.map Prod.fst).contains j)
        = (S2.tables.map Prod.fst).filter (fun j => (D1.tables.map Prod.fst).contains j) :=
      List.filter_congr (fun a _ => hcontD a)
    rw [hfix]
    exact sortStrings_perm_eq _ _ (hkS.filter _)
  have hcm : columnsMissingLines S1.tables D1.tables
        (sortStrings ((S1.tables.map Prod.fst).filter
          (fun j => (D1.tables.map Prod.fst).contains j)))
      = columnsMissingLines S2.tables D2.tables
        (sortStrings ((S2.tables.map Prod.fst).filter
          (fun j => (D2.tables.map Prod.fst).contains j))) := by
    rw [← hinter]
    unfold columnsMissingLines
    apply foldl_congr_mem
    intro key hkey acc
    obtain ⟨⟨hpeS, hwS1t, hwS2t⟩, ⟨hpeD, hwD1t, hwD2t⟩⟩ := hkeyFacts key hkey
    dsimp only
    have hcPerm : (dictGetTS S1.tables key).columns.Perm (dictGetTS S2.tables key).columns :=
      (List.perm_ext_iff_of_nodup hwS1t.1 hwS2t.1).mpr hpeS.2.1
    have hcCont : ∀ c : String, (dictGetTS D2.tables key).columns.contains c
        = (dictGetTS D1.tables key).columns.contains c :=
      contains_congr _ _ (fun x => (hpeD.2.1 x).symm)
    have hfix : (dictGetTS S2.tables key).columns.filter
          (fun c => ! (dictGetTS D2.tables key).columns.contains c)
        = (dictGetTS S2.tables key).columns.filter
          (fun c => ! (dictGetTS D1.tables key).columns.contains c) :=
      List.filter_congr (fun c _ => by rw [hcCont c])
    have hs : sortStrings ((dictGetTS S1.tables key).columns.filter
          (fun c => ! (dictGetTS D1.tables key).columns.contains c))
        = sortStrings ((dictGetTS S2.tables key).columns.filter
          (fun c => ! (dictGetTS D2.tables key).columns.contains c)) := by
      rw [hfix]
      exact sortStrings_perm_eq _ _ (hcPerm.filter _)
    exact colLoopBody_congr _ _ _ _ acc hs hpeS.1
  have hce : columnsExtraLines S1.tables D1.tables
        (sortStrings ((S1.tables.map Prod.fst).filter
          (fun j => (D1.tables.map Prod.fst).contains j)))
      = columnsExtraLines S2.tables D2.tables
        (sortStrings ((S2.tables.map Prod.fst).filter
          (fun j => (D2.tables.map Prod.fst).contains j))) := by
    rw [← hinter]
    unfold columnsExtraLines
    apply foldl_congr_mem
    intro key hkey acc
    obtain ⟨⟨hpeS, hwS1t, hwS2t⟩, ⟨hpeD, hwD1t, hwD2t⟩⟩ := hkeyFacts key hkey
    dsimp only
    have hcPerm : (dictGetTS D1.tables key).columns.Perm (dictGetTS D2.tables key).columns :=
      (List.perm_ext_iff_of_nodup hwD1t.1 hwD2t.1).mpr hpeD.2.1
    have hcCont : ∀ c : String, (dictGetTS S2.tables key).columns.contains c
        = (dictGetTS S1.tables key).columns.contains c :=
      contains_congr _ _ (fun x => (hpeS.2.1 x).symm)
    have hfix : (dictGetTS D2.tables key).columns.filter
          (fun c => ! (dictGetTS S2.tables key).columns.contains c)
        = (dictGetTS D2.tables key).columns.filter
          (fun c => ! (dictGetTS S1.tables key).columns.contains c) :=
      List.filter_congr (fun c _ => by rw [hcCont c])
    have hs : sortStrings ((dictGetTS D1.tables key).columns.filter
          (fun c => ! (dictGetTS S1.tables key).columns.contains c))
        = sortStrings ((dictGetTS D2.tables key).columns.filter
          (fun c => ! (dictGetTS S2.tables key).columns.contains c)) := by
      rw [hfix]
      exact sortStrings_perm_eq _ _ (hcPerm.filter _)
    exact colLoopBody_congr _ _ _ _ acc hs hpeS.1
  have hfm : fksMissingLines S1.tables D1.tables
        (sortStrings ((S1.tables.map Prod.fst).filter
          (fun j => (D1.tables.map Prod.fst).contains j)))
      = fksMissingLines S2.tables D2.tables
        (sortStrings ((S2.tables.map Prod.fst).filter
          (fun j => (D2.tables.map Prod.fst).contains j))) := by
    rw [← hinter]
    unfold fksMissingLines
    apply foldl_congr_mem
    intro key hkey acc
    obtain ⟨hk1, _⟩ := hmemInter key hkey
    obtain ⟨⟨hpeS, hwS1t, hwS2t⟩, ⟨hpeD, hwD1t, hwD2t⟩⟩ := hkeyFacts key hkey
    dsimp only
    have hfPerm : (dictGetTS S1.tables key).foreign_keys.Perm
        (dictGetTS S2.tables key).foreign_keys :=
      (List.perm_ext_iff_of_nodup hwS1t.2.1 hwS2t.2.1).mpr hpeS.2.2.1
    have hfCont : ∀ fk, (dictGetTS D2.tables key).foreign_keys.contains fk
        = (dictGetTS D1.tables key).foreign_keys.contains fk :=
      contains_congr _ _ (fun x => (hpeD.2.2.1 x).symm)
    have hfix : (dictGetTS S2.tables key).foreign_keys.filter
          (fun fk => ! (dictGetTS D2.tables key).foreign_keys.contains fk)
        = (dictGetTS S2.tables key).foreign_keys.filter
          (fun fk => ! (dictGetTS D1.tables key).foreign_keys.contains fk) :=
      List.filter_congr (fun fk _ => by rw [hfCont fk])
    have hmm : ((dictGetTS S1.tables key).foreign_keys.filter
          (fun fk => ! (dictGetTS D1.tables key).foreign_keys.contains fk)).Perm
        ((dictGetTS S2.tables key).foreign_keys.filter
          (fun fk => ! (dictGetTS D2.tables key).foreign_keys.contains fk)) := by
      rw [hfix]
      exact hfPerm.filter _
    have hsep1 : ∀ a ∈ (dictGetTS S1.tables key).foreign_keys.filter
          (fun fk => ! (dictGetTS D1.tables key).foreign_keys.contains fk),
        ∀ b ∈ (dictGetTS S1.tables key).foreign_keys.filter
          (fun fk => ! (dictGetTS D1.tables key).foreign_keys.contains fk),
        a.ref_table = b.ref_table → a.local_columns = b.local_columns → a = b :=
      fun a ha b hb =>
        snapshot_fk_sep_at S1 hsepS key hk1 a (List.mem_filter.mp ha).1 b (List.mem_filter.mp hb).1
    have hs := sortFk_perm_eq _ _ hsep1 hmm
    exact fkLoopBody_congr _ _ _ _ acc hmm hs hpeS.1
  have hfe : fksExtraLines S1.tables D1.tables
        (sortStrings ((S1.tables.map Prod.fst).filter
          (fun j => (D1.tables.map Prod.fst).contains j)))
      = fksExtraLines S2.tables D2.tables
        (sortStrings ((S2.tables.map Prod.fst).filter
          (fun j => (D2.tables.map Prod.fst).contains j))) := by
    rw [← hinter]
    unfold fksExtraLines
    apply foldl_congr_mem
    intro key hkey acc
    obtain ⟨_, hk2⟩ := hmemInter key hkey
    obtain ⟨⟨hpeS, hwS1t, hwS2t⟩, ⟨hpeD, hwD1t, hwD2t⟩⟩ := hkeyFacts key hkey
    dsimp only
    have hfPerm : (dictGetTS D1.tables key).foreign_keys.Perm
        (dictGetTS D2.tables key).foreign_keys :=
      (List.perm_ext_iff_of_nodup hwD1t.2.1 hwD2t.2.1).mpr hpeD.2.2.1
    have hfCont : ∀ fk, (dictGetTS S2.tables key).foreign_keys.contains fk
        = (dictGetTS S1.tables key).foreign_keys.contains fk :=
      contains_congr _ _ (fun x => (hpeS.2.2.1 x).symm)
    have hfix : (dictGetTS D2.tables key).foreign_keys.filter
          (fun fk => ! (dictGetTS S2.tables key).foreign_keys.contains fk)
        = (dictGetTS D2.tables key).foreign_keys.filter
          (fun fk => ! (dictGetTS S1.tables key).foreign_keys.contains fk) :=
      List.filter_congr (fun fk _ => by rw [hfCont fk])
    have hmm : ((dictGetTS D1.tables key).foreign_keys.filter
          (fun fk => ! (dictGetTS S1.tables key).foreign_keys.contains fk)).Perm
        ((dictGetTS D2.tables key).foreign_keys.filter
          (fun fk => ! (dictGetTS S2.tables key).foreign_keys.contains fk)) := by
      rw [hfix]
      exact hfPerm.filter _
    have hsep1 : ∀ a ∈ (dictGetTS D1.tables key).foreign_keys.filter
          (fun fk => ! (dictGetTS S1.tables key).foreign_keys.contains fk),
        ∀ b ∈ (dictGetTS D1.tables key).foreign_keys.filter
          (fun fk => ! (dictGetTS S1.tables key).foreign_keys.contains fk),
        a.ref_table = b.ref_table → a.local_columns = b.local_columns → a = b :=
      fun a ha b hb =>
        snapshot_fk_sep_at D1 hsepD key hk2 a (List.mem_filter.mp ha).1 b (List.mem_filter.mp hb).1
    have hs := sortFk_perm_eq _ _ hsep1 hmm
    exact fkLoopBody_congr _ _ _ _ acc hmm hs hpeD.1
  have him : idxMissingLines S1.tables D1.tables
        (sortStrings ((S1.tables.map Prod.fst).filter
          (fun j => (D1.tables.map Prod.fst).contains j)))
      = idxMissingLines S2.tables D2.tables
        (sortStrings ((S2.tables.map Prod.fst).filter
          (fun j => (D2.tables.map Prod.fst).contains j))) := by
    rw [← hinter]
    unfold idxMissingLines
    apply foldl_congr_mem
    intro key hkey acc
    obtain ⟨⟨hpeS, hwS1t, hwS2t⟩, ⟨hpeD, hwD1t, hwD2t⟩⟩ := hkeyFacts key hkey
    dsimp only
    have hiPerm : (dictGetTS S1.tables key).indexes.Perm (dictGetTS S2.tables key).indexes :=
      (List.perm_ext_iff_of_nodup hwS1t.2.2 hwS2t.2.2).mpr hpeS.2.2.2
    have hiCont : ∀ i, (dictGetTS D2.tables key).indexes.contains i
        = (dictGetTS D1.tables key).indexes.contains i :=
      contains_congr _ _ (fun x => (hpeD.2.2.2 x).symm)
    have hfix : (dictGetTS S2.tables key).indexes.filter
          (fun idx => ! (dictGetTS D2.tables key).indexes.contains idx)
        = (dictGetTS S2.tables key).indexes.filter
          (fun idx => ! (dictGetTS D1.tables key).indexes.contains idx) :=
      List.filter_congr (fun idx _ => by rw [hiCont idx])
    have hmm : ((dictGetTS S1.tables key).indexes.filter
          (fun idx => ! (dictGetTS D1.tables key).indexes.contains idx)).Perm
        ((dictGetTS S2.tables key).indexes.filter
          (fun idx => ! (dictGetTS D2.tables key).indexes.contains idx)) := by
      rw [hfix]
      exact hiPerm.filter _
    have hs := sortIdx_perm_eq _ _ hmm
    exact idxLoopBody_congr _ _ _ _ acc hmm hs hpeS.1
  have hie : idxExtraLines S1.tables D1.tables
        (sortStrings ((S1.tables.map Prod.fst).filter
          (fun j => (D1.tables.map Prod.fst).contains j)))
      = idxExtraLines S2.tables D2.tables
        (sortStrings ((S2.tables.map Prod.fst).filter
          (fun j => (D2.tables.map Prod.fst).contains j))) := by
    rw [← hinter]
    unfold idxExtraLines
    apply foldl_congr_mem
    intro key hkey acc
    obtain ⟨⟨hpeS, hwS1t, hwS2t⟩, ⟨hpeD, hwD1t, hwD2t⟩⟩ := hkeyFacts key hkey
    dsimp only
    have hiPerm : (dictGetTS D1.tables key).indexes.Perm (dictGetTS D2.tables key).indexes :=
      (List.perm_ext_iff_of_nodup hwD1t.2.2 hwD2t.2.2).mpr hpeD.2.2.2
    have hiCont : ∀ i, (dictGetTS S2.tables key).indexes.contains i
        = (dictGetTS S1.tables key).indexes.contains i :=
      contains_congr _ _ (fun x => (hpeS.2.2.2 x).symm)
    have hfix : (dictGetTS D2.tables key).indexes.filter
          (fun idx => ! (dictGetTS S2.tables key).indexes.contains idx)
        = (dictGetTS D2.tables key).indexes.filter
          (fun idx => ! (dictGetTS S1.tables key).indexes.contains idx) :=
      List.filter_congr (fun idx _ => by rw [hiCont idx])
    have hmm : ((dictGetTS D1.tables key).indexes.filter
          (fun idx => ! (dictGetTS S1.tables key).indexes.contains idx)).Perm
        ((dictGetTS D2.tables key).indexes.filter
          (fun idx => ! (dictGetTS S2.tables key).indexes.contains idx)) := by
      rw [hfix]
      exact hiPerm.filter _
    have hs := sortIdx_perm_eq _ _ hmm
    exact idxLoopBody_congr _ _ _ _ acc hmm hs hpeD.1
  unfold generate_diff_report
  dsimp only
  simp only [setOfList_eq_self _ hwS1.1, setOfList_eq_self _ hwS2.1,
    setOfList_eq_self _ hwD1.1, setOfList_eq_self _ hwD2.1]
  rw [hsec1, hsec2, hcm, hce, hfm, hfe, him, hie]

theorem tableSummaryPyEq_refl (t : TableSummary) : tableSummaryPyEq t t :=
  ⟨rfl, fun _ => Iff.rfl, fun _ => Iff.rfl, fun _ => Iff.rfl⟩

theorem snapshotPyEq_single (k : String) (t1 t2 : TableSummary) (h : tableSummaryPyEq t1 t2) :
    snapshotPyEq ⟨[(k, t1)]⟩ ⟨[(k, t2)]⟩ := by
  constructor
  · intro j
    simp only [alookup]
    by_cases hj : k = j <;> simp [hj]
  · intro j ta tb h1 h2
    simp only [alookup] at h1 h2
    by_cases hj : k = j
    · rw [if_pos hj] at h1 h2
      injection h1 with e1
      injection h2 with e2
      rw [← e1, ← e2]
      exact h
    · rw [if_neg hj] at h1
      simp [alookup] at h1

theorem snapshotPyEq_refl (S : SchemaSnapshot) : snapshotPyEq S S := by
  constructor
  · intro k
    exact Iff.rfl
  · intro k ta tb h1 h2
    rw [h1] at h2
    injection h2 with e
    rw [← e]
    exact tableSummaryPyEq_refl ta

set_option maxRecDepth 16384 in
/-- C9 counterexample: the snapshots `c9S1` and `c9S2` are equal as Python
values (same table key, set-equal summaries), yet the diff reports against
the same draw.io snapshot differ: the two foreign keys share the sort key
`(ref_table, local_columns)`, so the stable sort leaves them in iteration
order. -/
theorem c9_counterexample_shared_fk_sort_key :
    snapshotPyEq c9S1 c9S2 ∧
    generate_diff_report c9S1 c9D ≠ generate_diff_report c9S2 c9D := by
  constructor
  · apply snapshotPyEq_single
    refine ⟨rfl, fun x => Iff.rfl, fun x => ?_, fun x => Iff.rfl⟩
    simp only [List.mem_cons, List.not_mem_nil, or_false]
    tauto
  · decide

set_option maxRecDepth 16384 in
/-- Witness for the amended C9 theorem: two orderings of the same
well-separated snapshot produce identical reports. -/
theorem c9_report_deterministic_witness :
    generate_diff_report c9W1 c9D = generate_diff_report c9W2 c9D :=
  c9_report_deterministic c9W1 c9W2 c9D c9D
    (by
      apply snapshotPyEq_single
      refine ⟨rfl, fun x => ?_, fun x => ?_, fun x => Iff.rfl⟩
      · simp only [List.mem_cons, List.not_mem_nil, or_false]
        tauto
      · simp only [List.mem_cons, List.not_mem_nil, or_false]
        tauto)
    (snapshotPyEq_refl c9D)
    (by decide) (by decide) (by decide) (by decide) (by decide) (by decide)

/-! ### Splitter equivalence (claim C5) -/

theorem findClose_len : ∀ (l : List Char) (pr : List Char × List Char),
    findClose l = some pr → pr.2.length < l.length := by
  intro l
  induction l with
  | nil => intro pr h; simp [findClose] at h
  | cons x rest ih =>
    intro pr h
    unfold findClose at h
    by_cases hx : x = '*' ∧ rest.head? = some '/'
    · rw [if_pos hx] at h
      injection h with he
      rw [← he]
      simp [List.length_tail]
      omega
    · rw [if_neg hx] at h
      cases hfc : findClose rest with
      | none => rw [hfc] at h; cases h
      | some pr2 =>
        rw [hfc] at h
        injection h with he
        rw [← he]
        have := ih pr2 hfc
        simp
        omega

theorem dropWhile_head_false {p : Char → Bool} :
    ∀ (l : List Char) (c : Char) (r : List Char), l.dropWhile p = c :: r → p c = false := by
  intro l
  induction l with
  | nil => intro c r h; simp [List.dropWhile] at h
  | cons x xs ih =>
    intro c r h
    rw [List.dropWhile_cons] at h
    by_cases hx : p x = true
    · rw [if_pos hx] at h
      exact ih c r h
    · rw [if_neg hx] at h
      injection h with h1 _
      rw [← h1]
      cases hpx : p x with
      | false => rfl
      | true => exact absurd hpx hx

theorem takeWhile_of_dropWhile_nil {p : Char → Bool} (l : List Char)
    (h : l.dropWhile p = []) : l.takeWhile p = l := by
  have := @List.takeWhile_append_dropWhile _ p l
  rw [h] at this
  simpa using this

theorem spec_line_none : ∀ (cs buf : List Char) (stmts : List String),
    cs.dropWhile (fun x => x ≠ '\n') = [] →
    specSplitAux cs SplitMode.line buf stmts = flushStmt stmts (buf ++ cs) := by
  intro cs
  induction cs with
  | nil => intro buf stmts _; simp [specSplitAux]
  | cons c cs' ih =>
    intro buf stmts h
    rw [List.dropWhile_cons] at h
    by_cases hc : c = '\n'
    · rw [if_neg (by simp [hc])] at h
      cases h
    · rw [if_pos (by simp [hc])] at h
      simp only [specSplitAux, if_neg hc]
      rw [ih (buf ++ [c]) stmts h]
      simp

theorem spec_line_cons : ∀ (cs : List Char) (nl : Char) (rest buf : List Char)
    (stmts : List String),
    cs.dropWhile (fun x => x ≠ '\n') = nl :: rest →
    specSplitAux cs SplitMode.line buf stmts =
      specSplitAux rest SplitMode.normal
        (buf ++ cs.takeWhile (fun x => x ≠ '\n') ++ [nl]) stmts := by
  intro cs
  induction cs with
  | nil => intro nl rest buf stmts h; simp [List.dropWhile] at h
  | cons c cs' ih =>
    intro nl rest buf stmts h
    have hcopy := h
    rw [List.dropWhile_cons] at h
    by_cases hc : c = '\n'
    · rw [if_neg (by simp [hc])] at h
      injection h with h1 h2
      subst hc
      simp only [specSplitAux, if_pos rfl]
      rw [← h1, ← h2]
      have ht : ('\n' :: cs').takeWhile (fun x => x ≠ '\n') = [] := by
        simp [List.takeWhile_cons]
      rw [ht]
      simp
    · rw [if_pos (by simp [hc])] at h
      simp only [specSplitAux, if_neg hc]
      rw [ih nl rest (buf ++ [c]) stmts h]
      have ht : (c :: cs').takeWhile (fun x => x ≠ '\n')
          = c :: cs'.takeWhile (fun x => x ≠ '\n') := by
        simp [List.takeWhile_cons, hc]
      rw [ht]
      simp

theorem spec_block_none : ∀ (cs buf : List Char) (stmts : List String),
    findClose cs = none →
    specSplitAux cs SplitMode.block buf stmts = flushStmt stmts (buf ++ cs) := by
  intro cs
  induction cs with
  | nil => intro buf stmts _; simp [specSplitAux]
  | cons c cs' ih =>
    intro buf stmts h
    unfold findClose at h
    by_cases hc : c = '*' ∧ cs'.head? = some '/'
    · rw [if_pos hc] at h
      cases h
    · rw [if_neg hc] at h
      cases hfc : findClose cs' with
      | some pr => rw [hfc] at h; cases h
      | none =>
        simp only [specSplitAux, if_neg hc]
        rw [ih (buf ++ [c]) stmts hfc]
        simp

theorem spec_block_some : ∀ (cs : List Char) (pre rem buf : List Char) (stmts : List String),
    findClose cs = some (pre, rem) →
    specSplitAux cs SplitMode.block buf stmts =
      specSplitAux rem SplitMode.normal (buf ++ pre) stmts := by
  intro cs
  induction cs with
  | nil => intro pre rem buf stmts h; simp [findClose] at h
  | cons c cs' ih =>
    intro pre rem buf stmts h
    unfold findClose at h
    by_cases hc : c = '*' ∧ cs'.head? = some '/'
    · rw [if_pos hc] at h
      injection h with he
      rw [Prod.mk.injEq] at he
      obtain ⟨hpre, hrem⟩ := he
      obtain ⟨hc1, hc2⟩ := hc
      cases cs' with
      | nil => simp at hc2
      | cons d cs'' =>
        have hd : d = '/' := by simpa using hc2
        subst hc1
        subst hd
        simp only [specSplitAux]
        rw [← hpre, ← hrem]
        simp
    · rw [if_neg hc] at h
      cases hfc : findClose cs' with
      | none => rw [hfc] at h; cases h
      | some pr2 =>
        rw [hfc] at h
        injection h with he
        rw [Prod.mk.injEq] at he
        obtain ⟨hpre, hrem⟩ := he
        simp only [specSplitAux, if_neg hc]
        rw [ih pr2.1 pr2.2 (buf ++ [c]) stmts (by rw [hfc])]
        rw [← hpre, ← hrem]
        simp

theorem split_eq_spec : ∀ (n : Nat) (cs : List Char), cs.length ≤ n →
    ∀ (buf : List Char) (stmts : List String),
    (splitSqlAux cs false false buf stmts = specSplitAux cs SplitMode.normal buf stmts) ∧
    (splitSqlAux cs true false buf stmts = specSplitAux cs SplitMode.single buf stmts) ∧
    (splitSqlAux cs false true buf stmts = specSplitAux cs SplitMode.double buf stmts) := by
  intro n
  induction n with
  | zero =>
    intro cs hcs buf stmts
    have hnil : cs = [] := List.length_eq_zero.mp (Nat.le_zero.mp hcs)
    subst hnil
    refine ⟨?_, ?_, ?_⟩ <;> simp [splitSqlAux, specSplitAux]
  | succ n ih =>
    intro cs hcs buf stmts
    cases cs with
    | nil => refine ⟨?_, ?_, ?_⟩ <;> simp [splitSqlAux, specSplitAux]
    | cons c cs' =>
      have hlen : cs'.length ≤ n := by simp at hcs; omega
      refine ⟨?_, ?_, ?_⟩
      · by_cases h1 : c = '\''
        · subst h1
          simp [splitSqlAux, specSplitAux]
          exact (ih cs' hlen (buf ++ ['\'']) stmts).2.1
        · by_cases h2 : c = '"'
          · subst h2
            simp [splitSqlAux, specSplitAux]
            exact (ih cs' hlen (buf ++ ['"']) stmts).2.2
          · by_cases h3 : c = '-' ∧ cs'.head? = some '-'
            · obtain ⟨h3a, h3b⟩ := h3
              subst h3a
              cases cs' with
              | nil => simp at h3b
              | cons d cs'' =>
                have hd : d = '-' := by simpa using h3b
                subst hd
                have hlen2 : cs''.length + 2 ≤ n + 1 := by simpa using hcs
                simp [splitSqlAux, specSplitAux]
                cases hdw : cs''.dropWhile (fun x => x ≠ '\n') with
                | nil =>
                  rw [spec_line_none cs'' _ _ hdw]
                  have htw := takeWhile_of_dropWhile_nil cs'' hdw
                  have hdw2 : List.dropWhile (fun x => !decide (x = '\n')) cs'' = [] := by
                    simpa using hdw
                  have htw2 : List.takeWhile (fun x => !decide (x = '\n')) cs'' = cs'' := by
                    simpa using htw
                  rw [hdw2, htw2]
                  simp [splitSqlAux]
                | cons nl rest =>
                  have hnl : nl = '\n' := by
                    have := dropWhile_head_false cs'' nl rest hdw
                    simpa using this
                  subst hnl
                  rw [spec_line_cons cs'' '\n' rest _ _ hdw]
                  have hdw2 : List.dropWhile (fun x => !decide (x = '\n')) cs'' = '\n' :: rest := by
                    simpa using hdw
                  rw [hdw2]
                  have hrest : rest.length ≤ n := by
                    have hsuf : (List.dropWhile (fun x => (x ≠ '\n' : Bool)) cs'').length ≤ cs''.length :=
                      (List.dropWhile_suffix _).length_le
                    rw [hdw] at hsuf
                    simp at hsuf
                    omega
                  have hx := (ih rest hrest
                    (buf ++ '-' :: '-' :: cs''.takeWhile (fun x => x ≠ '\n') ++ ['\n']) stmts).1
                  simp [splitSqlAux] at hx ⊢
                  simpa using hx
            · by_cases h4 : c = '/' ∧ cs'.head? = some '*'
              · obtain ⟨h4a, h4b⟩ := h4
                subst h4a
                cases cs' with
                | nil => simp at h4b
                | cons d cs'' =>
                  have hd : d = '*' := by simpa using h4b
                  subst hd
                  have hlen2 : cs''.length + 2 ≤ n + 1 := by simpa using hcs
                  simp [splitSqlAux, specSplitAux]
                  cases hfc : findClose cs'' with
                  | none =>
                    rw [spec_block_none cs'' _ _ hfc]
                    simp [hfc]
                  | some pr =>
                    rw [spec_block_some cs'' pr.1 pr.2 _ _ (by rw [hfc])]
                    simp only [hfc]
                    have hrem : pr.2.length ≤ n := by
                      have := findClose_len cs'' pr hfc
                      omega
                    have hx := (ih pr.2 hrem (buf ++ '/' :: '*' :: pr.1) stmts).1
                    simpa using hx
              · by_cases h5 : c = ';'
                · subst h5
                  simp [splitSqlAux, specSplitAux]
                  exact (ih cs' hlen [] (flushStmt stmts buf)).1
                · simp [splitSqlAux, specSplitAux, h1, h2, h3, h4, h5]
                  exact (ih cs' hlen (buf ++ [c]) stmts).1
      · by_cases h1 : c = '\''
        · subst h1
          by_cases h2 : cs'.head? = some '\''
          · cases cs' with
            | nil => simp at h2
            | cons d cs'' =>
              have hd : d = '\'' := by simpa using h2
              subst hd
              have hlen2 : cs''.length ≤ n := by simp at hcs; omega
              simp [splitSqlAux, specSplitAux]
              exact (ih cs'' hlen2 (buf ++ ['\'', '\'']) stmts).2.1
          · simp [splitSqlAux, specSplitAux, h2]
            exact (ih cs' hlen (buf ++ ['\'']) stmts).1
        · simp [splitSqlAux, specSplitAux, h1]
          exact (ih cs' hlen (buf ++ [c]) stmts).2.1
      · by_cases h1 : c = '"'
        · subst h1
          by_cases h2 : cs'.head? = some '"'
          · cases cs' with
            | nil => simp at h2
            | cons d cs'' =>
              have hd : d = '"' := by simpa using h2
              subst hd
              have hlen2 : cs''.length ≤ n := by simp at hcs; omega
              simp [splitSqlAux, specSplitAux]
              exact (ih cs'' hlen2 (buf ++ ['"', '"']) stmts).2.2
          · simp [splitSqlAux, specSplitAux, h2]
            exact (ih cs' hlen (buf ++ ['"']) stmts).1
        · simp [splitSqlAux, specSplitAux, h1]
          exact (ih cs' hlen (buf ++ [c]) stmts).2.2

/-- C5: for every input SQL text, the statement splitter behaves exactly as
the spec's mode automaton: a `;` terminates a statement precisely when the
scanner is outside single-quoted strings (with `''` escapes), outside
double-quoted identifiers (with `""` escapes), and outside `--` line and
`/* */` block comments; a `;` inside any of those regions stays literal in
its statement. -/
theorem c5_split_sql_statements_spec (sql : String) :
    split_sql_statements sql = specSplitStatements sql := by
  unfold split_sql_statements specSplitStatements
  exact (split_eq_spec sql.toList.length sql.toList le_rfl [] []).1

/-! ### Index statements (claim C6) -/

theorem renameIndexScan_split (old_name new_name : String) :
    ∀ (pre : Schema) (k : String) (t : Table) (post : Schema),
    (∀ kv ∈ pre, kv.2.indexes.any (fun i => i.name = some old_name) = false) →
    t.indexes.any (fun i => i.name = some old_name) = true →
    renameIndexScan (pre ++ (k, t) :: post) old_name new_name =
      (pre ++ (k, (t.rename_index old_name new_name).1) :: post, true) := by
  intro pre
  induction pre with
  | nil =>
    intro k t post _ hown
    simp only [List.nil_append]
    unfold renameIndexScan
    unfold Table.rename_index
    rw [if_pos hown]
    simp [Table.rename_index, hown]
  | cons kv rest ih =>
    intro k t post hpre hown
    have hk := hpre kv (List.mem_cons_self kv rest)
    simp only [List.cons_append]
    unfold renameIndexScan
    unfold Table.rename_index
    rw [if_neg (by simp [hk])]
    dsimp only
    rw [ih k t post (fun kv2 h2 => hpre kv2 (List.mem_cons_of_mem kv h2)) hown]
    simp [Table.rename_index, hown]

/-- C6: replaying `CREATE INDEX` attaches the parsed index (name, column
and expression lists, uniqueness flag, method hint, WHERE predicate) to
the named table — created via `setdefault` when unknown — leaving every
other table untouched; replaying `ALTER INDEX old RENAME TO new` scans
the tables in order for the first one owning an index named `old`,
renames it there, and leaves every other table's indexes unchanged. -/
theorem c6_index_attach_and_rename (schema : Schema) (ix : IndexAst)
    (schema2 pre post : Schema) (k : String) (t : Table) (old_name new_name : String)
    (hsplit : schema2 = pre ++ (k, t) :: post)
    (hpre : ∀ kv ∈ pre, kv.2.indexes.any (fun i => i.name = some old_name) = false)
    (hown : t.indexes.any (fun i => i.name = some old_name) = true)
    (hnew : ¬ new_name = "") (hne : ¬ new_name = old_name) :
    (alookup (handle_create_index schema ix) ix.tableName =
        some (((alookup schema ix.tableName).getD (newTable ix.tableName)).add_index
          (parsedIndex ix) "" "unique") ∧
      (∀ j, ¬ j = ix.tableName →
        alookup (handle_create_index schema ix) j = alookup schema j)) ∧
    handle_alter_index schema2 old_name [new_name] =
      pre ++ (k, (t.rename_index old_name new_name).1) :: post := by
  refine ⟨⟨?_, ?_⟩, ?_⟩
  · unfold handle_create_index
    rw [alookup_dictUpdate_self, alookup_setdefault_self]
    rfl
  · intro j hj
    unfold handle_create_index
    rw [alookup_dictUpdate_ne _ _ _ _ (fun hc => hj hc.symm)]
    exact alookup_setdefault_ne schema ix.tableName j (fun hc => hj hc.symm)
  · subst hsplit
    unfold handle_alter_index
    simp only [List.foldl_cons, List.foldl_nil]
    rw [if_neg (by
      intro hor
      cases hor with
      | inl h => exact hnew h
      | inr h => exact hne h)]
    rw [renameIndexScan_split old_name new_name pre k t post hpre hown]

/-- Witness for the C6 theorem at a concrete schema. -/
theorem c6_index_attach_and_rename_witness :
    (alookup (handle_create_index [("a", newTable "a")] c6DemoIx) c6DemoIx.tableName =
        some (((alookup [("a", newTable "a")] c6DemoIx.tableName).getD
          (newTable c6DemoIx.tableName)).add_index (parsedIndex c6DemoIx) "" "unique") ∧
      (∀ j, ¬ j = c6DemoIx.tableName →
        alookup (handle_create_index [("a", newTable "a")] c6DemoIx) j =
          alookup [("a", newTable "a")] j)) ∧
    handle_alter_index ([("a", newTable "a")] ++ ("b", c6DemoT) :: []) "old" ["new"] =
      [("a", newTable "a")] ++ ("b", (c6DemoT.rename_index "old" "new").1) :: [] :=
  c6_index_attach_and_rename [("a", newTable "a")] c6DemoIx
    ([("a", newTable "a")] ++ ("b", c6DemoT) :: []) [("a", newTable "a")] [] "b" c6DemoT
    "old" "new" rfl (by decide) (by decide) (by decide) (by decide)

/-- C7 counterexample: cell `c8` sits eight parent hops from its table
anchor — more than `MAX_SEARCH_DEPTH` — yet the ancestor walk still
resolves it and the column map does give it an entry: the depth cap only
applies to the column-name search, not to the ancestor walk. -/
theorem c7_counterexample_uncapped_walk :
    parentHops (c7Cells.length + 2) c7Cells "c8" "t0" = some 8 ∧
    8 > MAX_SEARCH_DEPTH ∧
    find_table_ancestor (c7Cells.length + 2) [] (some "c8") c7Cells (tableIdsOf c7Cells)
      = some "t0" ∧
    alookup (column_map_build c7Cells) "c8" = some { table := "T", column := "deep_col" } := by
  refine ⟨?_, ?_, ?_, ?_⟩ <;> decide

theorem find_table_ancestor_chain : ∀ (chain seen : List String)
    (anchor : String) (cells : List (String × Cell)) (table_ids : List (String × String))
    (fuel : Nat),
    (alookup table_ids anchor).isSome = true →
    chainLinked cells anchor chain = true →
    chain.all (fun d => (alookup table_ids d).isNone) = true →
    chain.all (fun d => ¬ d = "") = true →
    chain.Nodup →
    (∀ d ∈ chain, d ∉ seen) →
    anchor ∉ seen →
    ¬ anchor = "" →
    chain.length + 1 ≤ fuel →
    find_table_ancestor fuel seen (some (chain.headD anchor)) cells table_ids = some anchor := by
  intro chain
  induction chain with
  | nil =>
    intro seen anchor cells table_ids fuel hanchor _ _ _ _ _ hseen hne hfuel
    cases fuel with
    | zero => omega
    | succ f =>
      simp only [List.headD, find_table_ancestor]
      rw [if_neg (by simp [optTruthy, hne])]
      simp only [Option.getD_some]
      rw [if_neg hseen, if_pos hanchor]
  | cons d rest ih =>
    intro seen anchor cells table_ids fuel hanchor hlink hno htr hnd hseen hanseen hne hfuel
    cases fuel with
    | zero => omega
    | succ f =>
      simp only [List.headD, find_table_ancestor]
      have htrd : ¬ d = "" := by
        have := htr
        simp [List.all_cons] at this
        exact this.1
      rw [if_neg (by simp [optTruthy, htrd])]
      simp only [Option.getD_some]
      rw [if_neg (hseen d (List.mem_cons_self d rest))]
      have hnod : (alookup table_ids d).isNone = true := by
        have := hno
        simp [List.all_cons] at this
        exact Option.isNone_iff_eq_none.mpr this.1
      rw [if_neg (by simp [Option.isNone_iff_eq_none.mp hnod])]
      unfold chainLinked at hlink
      rw [Bool.and_eq_true] at hlink
      obtain ⟨hstep, hrest⟩ := hlink
      cases hcell : alookup cells d with
      | none => rw [hcell] at hstep; simp at hstep
      | some cell =>
        rw [hcell] at hstep
        have hpar : cell.parent = some (rest.headD anchor) := by simpa using hstep
        dsimp only
        have hheadne : ¬ (rest.head?.getD anchor) = "" := by
          cases rest with
          | nil => simpa using hne
          | cons e rest2 =>
            have := htr
            simp [List.all_cons] at this
            simpa using this.2.1
        rw [if_neg (by simp [optTruthy, hpar, hheadne])]
        rw [hpar]
        have hdanchor : ¬ d = anchor := by
          intro hc
          rw [hc] at hnod
          rw [Option.isNone_iff_eq_none.mp hnod] at hanchor
          cases hanchor
        apply ih (seen ++ [d]) anchor cells table_ids f hanchor hrest
        · have := hno
          simp [List.all_cons] at this ⊢
          intro x hx
          exact this.2 x hx
        · have := htr
          simp [List.all_cons] at this ⊢
          intro x hx
          exact this.2 x hx
        · exact (List.nodup_cons.mp hnd).2
        · intro x hx
          simp only [List.mem_append, List.mem_singleton]
          push_neg
          constructor
          · exact hseen x (List.mem_cons_of_mem d hx)
          · intro hc
            exact absurd (hc ▸ hx) (List.nodup_cons.mp hnd).1
        · simp only [List.mem_append, List.mem_singleton]
          push_neg
          exact ⟨hanseen, fun hc => hdanchor hc.symm⟩
        · exact hne
        · simp at hfuel ⊢
          omega

/-- C7 (amended): the owning table is found by walking the `parent` chain
upward until a table anchor is reached, and the walk is bounded only by
cycle detection (the `seen` set), a missing cell or a falsy parent — not
by `MAX_SEARCH_DEPTH`: a duplicate-free linked chain of any length, with
no intermediate table anchors, resolves to its anchor (the depth cap
applies only to the column-name search `_resolve_column_name`). -/
theorem c7_table_ancestor_uncapped (chain : List String) (anchor : String)
    (cells : List (String × Cell)) (table_ids : List (String × String)) (fuel : Nat)
    (hanchor : (alookup table_ids anchor).isSome = true)
    (hlink : chainLinked cells anchor chain = true)
    (hno : chain.all (fun d => (alookup table_ids d).isNone) = true)
    (htr : chain.all (fun d => ¬ d = "") = true)
    (hnd : chain.Nodup)
    (hne : ¬ anchor = "")
    (hfuel : chain.length + 1 ≤ fuel) :
    find_table_ancestor fuel [] (some (chain.headD anchor)) cells table_ids = some anchor :=
  find_table_ancestor_chain chain [] anchor cells table_ids fuel hanchor hlink hno htr hnd
    (fun _ _ => List.not_mem_nil _) (List.not_mem_nil anchor) hne hfuel

/-- Witness for the amended C7 theorem: the eight-hop chain of `c7Cells`
— longer than `MAX_SEARCH_DEPTH` — resolves to the anchor `t0`. -/
theorem c7_table_ancestor_uncapped_witness :
    find_table_ancestor 9 []
        (some ((["c8", "c7", "c6", "c5", "c4", "c3", "c2", "c1"].headD "t0"))
        ) c7Cells (tableIdsOf c7Cells) = some "t0" :=
  c7_table_ancestor_uncapped ["c8", "c7", "c6", "c5", "c4", "c3", "c2", "c1"] "t0"
    c7Cells (tableIdsOf c7Cells) 9 (by decide) (by decide) (by decide) (by decide)
    (by decide) (by decide) (by decide)
